import Mathlib

/-!
Verification of the temporal aging & consolidation engine of
`scripts/consolidacion.py` (the "gold layer" generator).

The engine is embedded shallowly:
* `Date` models a calendar date (pandas `Timestamp` at day precision; the
  time-of-day component of `now` never changes any month-level decision made
  by the engine, so day precision is faithful).
* `toDays` is the proleptic-Gregorian ordinal (as in Python's
  `date.toordinal`), used for `(a - b).days` arithmetic on timestamps.
* Money amounts are `ℚ` (the script works with Python floats; all amounts
  arising here are decimal literals and sums of them, where rational and
  binary-float arithmetic agree on the comparisons performed).
* `runEngine` is the whole pipeline of `main()` between data cleaning and
  export: snapshot generation, the per-(snapshot, client) aggregation loop,
  and the prior-month variance merge.  `none` models the early
  `return` on a missing minimum date (nothing is exported).
-/

namespace Consolidacion

/-- Calendar date, `year`-`month`-`day`. -/
structure Date where
  year : Nat
  month : Nat
  day : Nat
deriving DecidableEq, Repr

/-- Gregorian leap-year test. -/
def isLeap (y : Nat) : Bool := (y % 4 == 0 && y % 100 != 0) || (y % 400 == 0)

/-- Number of days of month `m` (1-12) in a year whose leap flag is `leap`. -/
def monthLength (leap : Bool) (m : Nat) : Nat :=
  if m = 2 then (if leap then 29 else 28)
  else if m = 4 ∨ m = 6 ∨ m = 9 ∨ m = 11 then 30
  else 31

/-- Days strictly before month `m` within a year whose leap flag is `leap`. -/
def daysBeforeMonth (leap : Bool) (m : Nat) : Nat :=
  (if m ≤ 1 then 0 else if m = 2 then 31 else if m = 3 then 59 else if m = 4 then 90
   else if m = 5 then 120 else if m = 6 then 151 else if m = 7 then 181
   else if m = 8 then 212 else if m = 9 then 243 else if m = 10 then 273
   else if m = 11 then 304 else 334)
  + (if leap = true ∧ 3 ≤ m then 1 else 0)

/-- Days strictly before January 1 of year `y` (counted from day 1 =
January 1 of year 1), for `y ≥ 1`. -/
def daysBeforeYear (y : Nat) : Nat :=
  365 * (y - 1) + (y - 1) / 4 + (y - 1) / 400 - (y - 1) / 100

/-- Proleptic-Gregorian ordinal of a date (Python's `date.toordinal`);
timestamp differences in days are differences of this ordinal. -/
def toDays (d : Date) : Nat :=
  daysBeforeYear d.year + daysBeforeMonth (isLeap d.year) d.month + d.day

/-- `(a - b).days` on timestamps. -/
def daysBetween (a b : Date) : Int := (toDays a : Int) - (toDays b : Int)

/-- `days_overdue / 30.44`, the fixed average-month-length conversion. -/
def monthsOverdue (days : Int) : ℚ := (days : ℚ) / (3044 / 100)

/-- Serial month number of a date (`year * 12 + month - 1`). -/
def monthIndex (d : Date) : Nat := d.year * 12 + (d.month - 1)

/-- First day of the month with serial number `i`. -/
def monthStart (i : Nat) : Date := ⟨i / 12, i % 12 + 1, 1⟩

/-- `d.replace(day=1)`. -/
def floorMonth (d : Date) : Date := ⟨d.year, d.month, 1⟩

/-- `d + pd.DateOffset(months=1)` (day clamped to the target month length). -/
def addMonth (d : Date) : Date :=
  if d.month = 12 then ⟨d.year + 1, 1, min d.day (monthLength (isLeap (d.year + 1)) 1)⟩
  else ⟨d.year, d.month + 1, min d.day (monthLength (isLeap d.year) (d.month + 1))⟩

/-- `d - pd.DateOffset(months=1)` (day clamped to the target month length). -/
def subMonth (d : Date) : Date :=
  if d.month = 1 then ⟨d.year - 1, 12, min d.day (monthLength (isLeap (d.year - 1)) 12)⟩
  else ⟨d.year, d.month - 1, min d.day (monthLength (isLeap d.year) (d.month - 1))⟩

/-- Python's `max(a, b)` on timestamps (returns `a` on ties). -/
def pymax (a b : Date) : Date := if toDays a < toDays b then b else a

/-- Chronological minimum of a list of dates (pandas `Series.min` over the
non-missing values; `none` on an empty list). -/
def minDate? (ds : List Date) : Option Date :=
  ds.foldl (fun acc d =>
    match acc with
    | none => some d
    | some m => if toDays d < toDays m then some d else some m) none

/-- Chronological maximum of a list of dates. -/
def maxDate? (ds : List Date) : Option Date :=
  ds.foldl (fun acc d =>
    match acc with
    | none => some d
    | some m => if toDays m < toDays d then some d else some m) none

/-- One cleaned ledger row: `Cliente`, `Fecha`, `Vencimiento`,
`Fecha de cobro`, `Total`, `Num`.  Missing dates (`NaT`) are `none`. -/
structure Invoice where
  cliente : String
  fecha : Option Date
  vencimiento : Option Date
  cobro : Option Date
  total : ℚ
  num : String
deriving DecidableEq, Repr

/-- One record appended to `gold_rows` by the aggregation loop. -/
structure GoldRow where
  fechaReporte : Date
  cliente : String
  concepto : String
  monto : ℚ
  esMesActual : Bool
  numeroFacturas : Nat
  listaFacturas : List String
deriving DecidableEq, Repr

/-- A gold row together with its `Variacion_Mes_Anterior` column. -/
structure FinalRow where
  row : GoldRow
  variacion : ℚ
deriving DecidableEq, Repr

/-- `is_unpaid = pd.isna(payment_date) or (payment_date > snapshot_date)`. -/
def isUnpaidAt (s : Date) (inv : Invoice) : Bool :=
  match inv.cobro with
  | none => true
  | some p => decide (toDays s < toDays p)

/-- Membership in `relevant_invoices_debt`: `Fecha <= snapshot_date`
(`NaT` compares false). -/
def relevantAt (s : Date) (inv : Invoice) : Bool :=
  match inv.fecha with
  | none => false
  | some d => decide (toDays d ≤ toDays s)

/-- Membership in `billing_in_month`: `Fecha` has the snapshot's calendar
year and month (`NaT` compares false). -/
def inMonthOf (s : Date) (inv : Invoice) : Bool :=
  match inv.fecha with
  | none => false
  | some d => decide (d.year = s.year) && decide (d.month = s.month)

/-- The guard `is_unpaid and pd.notna(invoice_date)` followed by
`days_overdue > 0` that opens the aging block of the loop. -/
def overdueAt (s : Date) (inv : Invoice) : Bool :=
  isUnpaidAt s inv &&
    (match inv.fecha with
     | none => false
     | some d => decide (0 < daysBetween s d))

/-- The `if months_overdue < 3 / elif ... / elif ... / elif ...` chain
classifying an overdue invoice into an aging-bucket concept. -/
def bucketConcept (m : ℚ) : Option String :=
  if m < 3 then some "Deuda 0-3 Meses"
  else if 3 ≤ m ∧ m < 6 then some "Deuda 3-6 Meses"
  else if 6 ≤ m ∧ m < 12 then some "Deuda 6-12 Meses"
  else if 12 ≤ m then some "Deuda > 12 Meses"
  else none

/-- The invoice accumulates into bucket `b` at snapshot `s`. -/
def inBucket (b : String) (s : Date) (inv : Invoice) : Bool :=
  overdueAt s inv &&
    (match inv.fecha with
     | none => false
     | some d => decide (bucketConcept (monthsOverdue (daysBetween s d)) = some b))

/-- The 3-month threshold-crossing test:
`months_overdue_prev < 3 and months_overdue >= 3` (within the aging block). -/
def crossedAt (s : Date) (inv : Invoice) : Bool :=
  overdueAt s inv &&
    (match inv.fecha with
     | none => false
     | some d =>
       decide (monthsOverdue (daysBetween (subMonth s) d) < 3) &&
       decide (3 ≤ monthsOverdue (daysBetween s d)))

/-- Accumulation into `paid_debt_post_start`: overdue at `s` and
`pd.notna(payment_date)`. -/
def paidPostAt (s : Date) (inv : Invoice) : Bool :=
  overdueAt s inv && inv.cobro.isSome

/-- Accumulation into `paid_alert_post_start`: the crossing test holds and
`pd.notna(payment_date)`. -/
def paidAlertAt (s : Date) (inv : Invoice) : Bool :=
  crossedAt s inv && inv.cobro.isSome

/-- Sum of the `Total` column over a list of invoices. -/
def sumTotal (l : List Invoice) : ℚ := (l.map Invoice.total).sum

/-- The `Num` column of a list of invoices, in order (`Lista_Facturas` is
this list joined by a comma-space separator at export time). -/
def numsOf (l : List Invoice) : List String := l.map Invoice.num

/-- Build one `gold_rows` record. -/
def mkRow (s : Date) (c concepto : String) (amt : ℚ) (cur : Bool)
    (invs : List Invoice) : GoldRow :=
  { fechaReporte := s, cliente := c, concepto := concepto, monto := amt,
    esMesActual := cur, numeroFacturas := invs.length, listaFacturas := numsOf invs }

/-- `is_current_month` for snapshot `s`. -/
def isCurrentMonth (now s : Date) : Bool :=
  decide (s.year = now.year) && decide (s.month = now.month)

/-- `client_billing_df`: the invoices of client `c` billed in the snapshot's
calendar month. -/
def billingOf (ledger : List Invoice) (s : Date) (c : String) : List Invoice :=
  ledger.filter (fun inv => inMonthOf s inv && decide (inv.cliente = c))

/-- `client_invoices`: the rows of `relevant_invoices_debt` for client `c`. -/
def clientInvoicesOf (ledger : List Invoice) (s : Date) (c : String) : List Invoice :=
  ledger.filter (fun inv => relevantAt s inv && decide (inv.cliente = c))

/-- The invoices accumulated into aging bucket `b` at snapshot `s`. -/
def bucketInvoices (ledger : List Invoice) (s : Date) (c b : String) : List Invoice :=
  (clientInvoicesOf ledger s c).filter (inBucket b s)

/-- The invoices accumulated into `crossed_3_months` at snapshot `s`. -/
def crossedInvoices (ledger : List Invoice) (s : Date) (c : String) : List Invoice :=
  (clientInvoicesOf ledger s c).filter (crossedAt s)

/-- The invoices accumulated into `paid_debt_post_start` at snapshot `s`. -/
def paidPostInvoices (ledger : List Invoice) (s : Date) (c : String) : List Invoice :=
  (clientInvoicesOf ledger s c).filter (paidPostAt s)

/-- The invoices accumulated into `paid_alert_post_start` at snapshot `s`. -/
def paidAlertInvoices (ledger : List Invoice) (s : Date) (c : String) : List Invoice :=
  (clientInvoicesOf ledger s c).filter (paidAlertAt s)

/-- The conditional append of one aging-bucket row (`if ..._sum > 0`). -/
def bucketRowBlock (ledger : List Invoice) (now s : Date) (c b : String) : List GoldRow :=
  if 0 < sumTotal (bucketInvoices ledger s c b) then
    [mkRow s c b (sumTotal (bucketInvoices ledger s c b)) (isCurrentMonth now s)
      (bucketInvoices ledger s c b)]
  else []

/-- The body of the `for client in clients` loop at snapshot `s`: the
conditionally appended concept rows, in program order.  Every accumulator of
the inner invoice loop equals the corresponding filtered sum/list because
the loop visits `client_invoices` in ledger order. -/
def rowsFor (ledger : List Invoice) (now s : Date) (c : String) : List GoldRow :=
  (if 0 < sumTotal (billingOf ledger s c) then
    [mkRow s c "Facturación Mensual" (sumTotal (billingOf ledger s c))
      (isCurrentMonth now s) (billingOf ledger s c)] else [])
  ++ bucketRowBlock ledger now s c "Deuda 0-3 Meses"
  ++ bucketRowBlock ledger now s c "Deuda 3-6 Meses"
  ++ bucketRowBlock ledger now s c "Deuda 6-12 Meses"
  ++ bucketRowBlock ledger now s c "Deuda > 12 Meses"
  ++ (if 0 < sumTotal (crossedInvoices ledger s c) then
    [mkRow s c "Alerta: Pasó 3 Meses" (sumTotal (crossedInvoices ledger s c))
      (isCurrentMonth now s) (crossedInvoices ledger s c)] else [])
  ++ (if isCurrentMonth now s = true ∧ 0 < sumTotal (paidPostInvoices ledger s c) then
    [mkRow s c "Pagos Deuda Post-Inicio" (sumTotal (paidPostInvoices ledger s c))
      (isCurrentMonth now s) (paidPostInvoices ledger s c)] else [])
  ++ (if isCurrentMonth now s = true ∧ 0 < sumTotal (paidAlertInvoices ledger s c) then
    [mkRow s c "Pagos Alerta Post-Inicio" (sumTotal (paidAlertInvoices ledger s c))
      (isCurrentMonth now s) (paidAlertInvoices ledger s c)] else [])

/-- `df_consolidado['Cliente'].unique()`: distinct clients in first-occurrence
order. -/
def uniqueClients (ledger : List Invoice) : List String :=
  ledger.foldl (fun acc inv => if inv.cliente ∈ acc then acc else acc ++ [inv.cliente]) []

/-- The non-missing `Fecha` values of the ledger. -/
def validDates (ledger : List Invoice) : List Date := ledger.filterMap Invoice.fecha

/-- `count` consecutive month starts beginning at serial month `startI`
(the expansion of `pd.date_range(freq='MS')`). -/
def monthRange (startI count : Nat) : List Date :=
  match count with
  | 0 => []
  | n + 1 => monthStart startI :: monthRange (startI + 1) n

/-- Snapshot generation: `none` models the fatal
`Error: Could not determine min date` early return; otherwise the month
starts from `min_date.replace(day=1)` to
`max(max_data_date, now).replace(day=1)` inclusive. -/
def snapshots (ledger : List Invoice) (now : Date) : Option (List Date) :=
  match minDate? (validDates ledger), maxDate? (validDates ledger) with
  | some minD, some maxD =>
      let startI := monthIndex (floorMonth minD)
      let endI := monthIndex (floorMonth (pymax maxD now))
      some (monthRange startI (endI + 1 - startI))
  | _, _ => none

/-- The full `gold_rows` list: snapshot loop outside, client loop inside. -/
def goldRows (ledger : List Invoice) (now : Date) (snaps : List Date) : List GoldRow :=
  snaps.flatMap (fun s => (uniqueClients ledger).flatMap (fun c => rowsFor ledger now s c))

/-- Code-point lexicographic comparison of strings as character lists
(Python's `str` ordering, used by `sort_values`). -/
def strLtB : List Char → List Char → Bool
  | [], [] => false
  | [], _ :: _ => true
  | _ :: _, [] => false
  | a :: as, b :: bs =>
      if a.val < b.val then true else if b.val < a.val then false else strLtB as bs

/-- Row order of `sort_values(by=['Cliente', 'Concepto', 'Fecha_Reporte'])`. -/
def rowLE (a b : GoldRow) : Bool :=
  strLtB a.cliente.data b.cliente.data
  || (decide (a.cliente = b.cliente) &&
      (strLtB a.concepto.data b.concepto.data
       || (decide (a.concepto = b.concepto) &&
           decide (toDays a.fechaReporte ≤ toDays b.fechaReporte))))

/-- Ordered insertion for the sorting pass. -/
def insertRow (r : GoldRow) : List GoldRow → List GoldRow
  | [] => [r]
  | x :: xs => if rowLE r x then r :: x :: xs else x :: insertRow r xs

/-- The sorting pass.  The sort key `(Cliente, Concepto, Fecha_Reporte)` has
no duplicates in an engine run, so any comparison sort produces the same
list; insertion sort stands in for pandas' quicksort. -/
def sortRows (l : List GoldRow) : List GoldRow := l.foldr insertRow []

/-- The merge key test of the variance pass: `p`, with `Fecha_Reporte`
shifted one month forward, equals `r` on
`(Fecha_Reporte, Cliente, Concepto)`. -/
def matchesPrior (r p : GoldRow) : Bool :=
  decide (addMonth p.fechaReporte = r.fechaReporte) &&
    decide (p.cliente = r.cliente) && decide (p.concepto = r.concepto)

/-- The output of the left merge for one row `r`: one merged row per match,
or a single row with `Monto_Anterior = 0` (the `fillna(0)`) when nothing
matches; `Variacion_Mes_Anterior = Monto - Monto_Anterior`. -/
def mergeRow (rows : List GoldRow) (r : GoldRow) : List FinalRow :=
  match rows.filter (matchesPrior r) with
  | [] => [{ row := r, variacion := r.monto - 0 }]
  | ps => ps.map (fun p => { row := r, variacion := r.monto - p.monto })

/-- The variance pass: a left merge of the rows against their own
month-shifted copy. -/
def attachVariance (rows : List GoldRow) : List FinalRow :=
  rows.flatMap (mergeRow rows)

/-- The engine: everything `main()` computes between the cleaned ledger and
the export call.  `none` is the aborted run (no time axis). -/
def runEngine (ledger : List Invoice) (now : Date) : Option (List FinalRow) :=
  match snapshots ledger now with
  | none => none
  | some snaps => some (attachVariance (sortRows (goldRows ledger now snaps)))

/-- A date lies on the real calendar grid (needed for the transfer between
chronological order and month order). -/
def wfDate (d : Date) : Prop :=
  1 ≤ d.year ∧ 1 ≤ d.month ∧ d.month ≤ 12 ∧ 1 ≤ d.day ∧
    d.day ≤ monthLength (isLeap d.year) d.month

instance (d : Date) : Decidable (wfDate d) := by unfold wfDate; infer_instance

/-- All invoice dates of the ledger are well-formed calendar dates. -/
def wfLedger (ledger : List Invoice) : Prop :=
  ∀ inv ∈ ledger, ∀ d : Date, inv.fecha = some d → wfDate d

/-- A date lying on the month grid (all report dates do). -/
def monthStartish (d : Date) : Prop := d.day = 1 ∧ 1 ≤ d.month ∧ d.month ≤ 12

/-- The unique key of an emitted row. -/
def keyOf (r : GoldRow) : Date × String × String := (r.fechaReporte, r.cliente, r.concepto)

/-- The prior-month amount looked up by the variance pass (0 when no row of
the same client and concept is dated one month earlier). -/
def priorAmount (rows : List GoldRow) (r : GoldRow) : ℚ :=
  ((rows.filter (matchesPrior r)).map GoldRow.monto).headD 0

/-! ### Sample data for the concrete checks -/

/-- A well-formed one-invoice ledger: client `A`, invoiced 0005-01-10,
total 100, never paid. -/
def invA : Invoice := ⟨"A", some ⟨5, 1, 10⟩, none, none, 100, "F1"⟩

/-- A run date inside the invoice month of `invA`. -/
def nowA : Date := ⟨5, 1, 20⟩

/-- An invoice with no invoice date at all. -/
def invND : Invoice := ⟨"A", none, none, none, 100, "F0"⟩

/-- An invoice dated exactly on a month start (zero days overdue there). -/
def invC1 : Invoice := ⟨"A", some ⟨5, 3, 1⟩, none, none, 100, "F2"⟩

/-- The snapshot date coinciding with `invC1`'s invoice date. -/
def dateC1 : Date := ⟨5, 3, 1⟩

/-- An invoice of `invA`'s shape that was eventually paid. -/
def invP : Invoice := ⟨"A", some ⟨5, 1, 10⟩, none, some ⟨5, 6, 1⟩, 100, "F4"⟩

/-- The expected engine output over the ledger `[invA]` at `nowA`. -/
def outA : List FinalRow :=
  [{ row := mkRow ⟨5, 1, 1⟩ "A" "Facturación Mensual" 100 true [invA],
     variacion := 100 }]

/-- A crossing invoice whose total is 0. -/
def invZ : Invoice := ⟨"A", some ⟨5, 1, 10⟩, none, none, 0, "F5"⟩

/-- The run date for the crossing scenarios (current month 0005-05). -/
def nowM : Date := ⟨5, 5, 20⟩

/-! ### Calendar arithmetic lemmas -/

theorem monthLength_pos (leap : Bool) (m : Nat) : 0 < monthLength leap m := by
  unfold monthLength
  split
  · split <;> decide
  · split <;> decide

theorem monthLength_le (leap : Bool) (m : Nat) : monthLength leap m ≤ 31 := by
  unfold monthLength
  split
  · split <;> decide
  · split <;> decide

theorem isLeap_iff (y : Nat) :
    isLeap y = true ↔ ((y % 4 = 0 ∧ y % 100 ≠ 0) ∨ y % 400 = 0) := by
  unfold isLeap
  simp [Bool.or_eq_true, Bool.and_eq_true, beq_iff_eq, bne_iff_ne]

set_option maxHeartbeats 1000000 in
theorem daysBeforeYear_succ (y : Nat) (hy : 1 ≤ y) :
    daysBeforeYear (y + 1) = daysBeforeYear y + 365 + (if isLeap y then 1 else 0) := by
  unfold daysBeforeYear
  by_cases h : isLeap y = true
  · rw [if_pos h]
    rw [isLeap_iff] at h
    omega
  · rw [if_neg h]
    rw [isLeap_iff] at h
    push_neg at h
    omega

theorem daysBeforeMonth_one (leap : Bool) : daysBeforeMonth leap 1 = 0 := by
  cases leap <;> decide

theorem daysBeforeMonth_succ (leap : Bool) (m : Nat) (h1 : 1 ≤ m) (h2 : m ≤ 11) :
    daysBeforeMonth leap (m + 1) = daysBeforeMonth leap m + monthLength leap m := by
  interval_cases m <;> cases leap <;> decide

/-- One step of the snapshot grid: the ordinal grows by the length of the
month being stepped over. -/
theorem toDays_monthStart_succ (i : Nat) (hi : 12 ≤ i) :
    toDays (monthStart (i + 1)) =
      toDays (monthStart i) + monthLength (isLeap (i / 12)) (i % 12 + 1) := by
  by_cases h : i % 12 = 11
  · have e1 : (i + 1) / 12 = i / 12 + 1 := by omega
    have e2 : (i + 1) % 12 = 0 := by omega
    have hy : 1 ≤ i / 12 := by omega
    unfold monthStart toDays
    simp only [e1, e2, h]
    rw [daysBeforeYear_succ _ hy]
    have e3 : daysBeforeMonth (isLeap (i / 12 + 1)) (0 + 1) = 0 := daysBeforeMonth_one _
    have e4 : daysBeforeMonth (isLeap (i / 12)) (11 + 1) =
        334 + (if isLeap (i / 12) then 1 else 0) := by
      cases hL : isLeap (i / 12) <;> simp [daysBeforeMonth]
    have e5 : monthLength (isLeap (i / 12)) (11 + 1) = 31 := by
      cases isLeap (i / 12) <;> decide
    rw [e3, e4, e5]
    omega
  · have e1 : (i + 1) / 12 = i / 12 := by omega
    have e2 : (i + 1) % 12 = i % 12 + 1 := by omega
    unfold monthStart toDays
    simp only [e1, e2]
    rw [daysBeforeMonth_succ (isLeap (i / 12)) (i % 12 + 1) (by omega) (by omega)]
    omega

theorem toDays_monthStart_lt_succ (i : Nat) (hi : 12 ≤ i) :
    toDays (monthStart i) < toDays (monthStart (i + 1)) := by
  rw [toDays_monthStart_succ i hi]
  have := monthLength_pos (isLeap (i / 12)) (i % 12 + 1)
  omega

theorem toDays_monthStart_le_mono {i j : Nat} (hi : 12 ≤ i) (hij : i ≤ j) :
    toDays (monthStart i) ≤ toDays (monthStart j) := by
  induction j, hij using Nat.le_induction with
  | base => exact le_rfl
  | succ n hn ih =>
      exact le_trans ih (le_of_lt (toDays_monthStart_lt_succ n (le_trans hi hn)))

theorem toDays_monthStart_lt_mono {i j : Nat} (hi : 12 ≤ i) (hij : i < j) :
    toDays (monthStart i) < toDays (monthStart j) := by
  have h1 := toDays_monthStart_lt_succ i hi
  have h2 := toDays_monthStart_le_mono (by omega : 12 ≤ i + 1) hij
  omega

theorem monthStart_inj {i j : Nat} (h : monthStart i = monthStart j) : i = j := by
  unfold monthStart at h
  rw [Date.mk.injEq] at h
  omega

theorem monthIndex_floorMonth (d : Date) : monthIndex (floorMonth d) = monthIndex d := rfl

theorem monthStart_monthIndex (d : Date) (h1 : 1 ≤ d.month) (h2 : d.month ≤ 12) :
    monthStart (monthIndex d) = floorMonth d := by
  unfold monthStart monthIndex floorMonth
  rw [Date.mk.injEq]
  omega

theorem monthIndex_ge_twelve (d : Date) (hw : wfDate d) : 12 ≤ monthIndex d := by
  obtain ⟨hy, hm1, hm2, _, _⟩ := hw
  unfold monthIndex
  omega

/-- Relating the date fields of a month-start grid point. -/
theorem monthStart_fields (i : Nat) :
    (monthStart i).year = i / 12 ∧ (monthStart i).month = i % 12 + 1 ∧
      (monthStart i).day = 1 := ⟨rfl, rfl, rfl⟩

/-- A well-formed date's ordinal sits inside its month's grid interval. -/
theorem toDays_between_monthStart (d : Date) (hw : wfDate d) :
    toDays (monthStart (monthIndex d)) ≤ toDays d ∧
      toDays d < toDays (monthStart (monthIndex d + 1)) := by
  obtain ⟨hy, hm1, hm2, hd1, hd2⟩ := hw
  have hfm : monthStart (monthIndex d) = floorMonth d := monthStart_monthIndex d hm1 hm2
  have hi : 12 ≤ monthIndex d := monthIndex_ge_twelve d ⟨hy, hm1, hm2, hd1, hd2⟩
  have hstep := toDays_monthStart_succ (monthIndex d) hi
  have hy' : monthIndex d / 12 = d.year := by unfold monthIndex; omega
  have hm' : monthIndex d % 12 + 1 = d.month := by unfold monthIndex; omega
  rw [hy', hm'] at hstep
  have hfl : toDays (floorMonth d) + d.day = toDays d + 1 := by
    unfold toDays floorMonth
    simp only
    omega
  constructor
  · rw [hfm]; unfold toDays floorMonth; simp only; omega
  · rw [hstep, hfm]; omega

/-- Chronological order refines month order on well-formed dates. -/
theorem toDays_lt_of_monthIndex_lt {a b : Date} (ha : wfDate a) (hb : wfDate b)
    (h : monthIndex a < monthIndex b) : toDays a < toDays b := by
  have h1 := toDays_between_monthStart a ha
  have h2 := toDays_between_monthStart b hb
  have hi : 12 ≤ monthIndex a + 1 := by
    have := monthIndex_ge_twelve a ha; omega
  have h3 : toDays (monthStart (monthIndex a + 1)) ≤ toDays (monthStart (monthIndex b)) :=
    toDays_monthStart_le_mono hi h
  omega

theorem monthIndex_le_of_toDays_le {a b : Date} (ha : wfDate a) (hb : wfDate b)
    (h : toDays a ≤ toDays b) : monthIndex a ≤ monthIndex b := by
  by_contra hc
  push_neg at hc
  have := toDays_lt_of_monthIndex_lt hb ha hc
  omega

theorem subMonth_monthStart (i : Nat) (hi : 12 ≤ i) :
    subMonth (monthStart i) = monthStart (i - 1) := by
  unfold subMonth monthStart
  simp only
  by_cases h : i % 12 + 1 = 1
  · rw [if_pos h]
    have hL := monthLength_pos (isLeap (i / 12 - 1)) 12
    rw [Date.mk.injEq]
    refine ⟨by omega, by omega, by omega⟩
  · rw [if_neg h]
    have hL := monthLength_pos (isLeap (i / 12)) (i % 12 + 1 - 1)
    rw [Date.mk.injEq]
    refine ⟨by omega, by omega, by omega⟩

theorem addMonth_monthStart (i : Nat) :
    addMonth (monthStart i) = monthStart (i + 1) := by
  unfold addMonth monthStart
  simp only
  by_cases h : i % 12 + 1 = 12
  · rw [if_pos h]
    have hL := monthLength_pos (isLeap (i / 12 + 1)) 1
    rw [Date.mk.injEq]
    refine ⟨by omega, by omega, by omega⟩
  · rw [if_neg h]
    have hL := monthLength_pos (isLeap (i / 12)) (i % 12 + 1 + 1)
    rw [Date.mk.injEq]
    refine ⟨by omega, by omega, by omega⟩

theorem monthStartish_monthStart (i : Nat) : monthStartish (monthStart i) :=
  ⟨rfl, by show 1 ≤ i % 12 + 1; omega, by show i % 12 + 1 ≤ 12; omega⟩

theorem addMonth_inj_on {d e : Date} (hd : monthStartish d) (he : monthStartish e)
    (h : addMonth d = addMonth e) : d = e := by
  obtain ⟨hd1, hd2, hd3⟩ := hd
  obtain ⟨he1, he2, he3⟩ := he
  unfold addMonth at h
  rw [Date.mk.injEq]
  split at h <;> split at h <;> rw [Date.mk.injEq] at h <;> omega

/-! ### Integer characterizations of the `30.44`-month thresholds -/

theorem monthsOverdue_lt_three {d : Int} : monthsOverdue d < 3 ↔ d ≤ 91 := by
  unfold monthsOverdue
  rw [div_lt_iff₀ (by norm_num : (0 : ℚ) < 3044 / 100)]
  constructor
  · intro h
    have h1 : (3 : ℚ) * (3044 / 100) < 92 := by norm_num
    have h2 : (d : ℚ) < 92 := by linarith
    have h3 : d < 92 := by exact_mod_cast h2
    omega
  · intro h
    have h1 : (d : ℚ) ≤ 91 := by exact_mod_cast h
    have h2 : (91 : ℚ) < 3 * (3044 / 100) := by norm_num
    linarith

theorem three_le_monthsOverdue {d : Int} : 3 ≤ monthsOverdue d ↔ 92 ≤ d := by
  rw [← not_lt, monthsOverdue_lt_three]
  omega

theorem monthsOverdue_lt_six {d : Int} : monthsOverdue d < 6 ↔ d ≤ 182 := by
  unfold monthsOverdue
  rw [div_lt_iff₀ (by norm_num : (0 : ℚ) < 3044 / 100)]
  constructor
  · intro h
    have h1 : (6 : ℚ) * (3044 / 100) < 183 := by norm_num
    have h2 : (d : ℚ) < 183 := by linarith
    have h3 : d < 183 := by exact_mod_cast h2
    omega
  · intro h
    have h1 : (d : ℚ) ≤ 182 := by exact_mod_cast h
    have h2 : (182 : ℚ) < 6 * (3044 / 100) := by norm_num
    linarith

theorem monthsOverdue_lt_twelve {d : Int} : monthsOverdue d < 12 ↔ d ≤ 365 := by
  unfold monthsOverdue
  rw [div_lt_iff₀ (by norm_num : (0 : ℚ) < 3044 / 100)]
  constructor
  · intro h
    have h1 : (12 : ℚ) * (3044 / 100) < 366 := by norm_num
    have h2 : (d : ℚ) < 366 := by linarith
    have h3 : d < 366 := by exact_mod_cast h2
    omega
  · intro h
    have h1 : (d : ℚ) ≤ 365 := by exact_mod_cast h
    have h2 : (365 : ℚ) < 12 * (3044 / 100) := by norm_num
    linarith

/-! ### Minimum / maximum of the date column -/

theorem minDate?_spec (ds : List Date) (m : Date) (h : minDate? ds = some m) :
    m ∈ ds ∧ ∀ d ∈ ds, toDays m ≤ toDays d := by
  unfold minDate? at h
  suffices haux : ∀ (l : List Date) (acc : Option Date) (m : Date),
      l.foldl (fun acc d =>
        match acc with
        | none => some d
        | some m => if toDays d < toDays m then some d else some m) acc = some m →
      (m ∈ l ∨ acc = some m) ∧ (∀ d ∈ l, toDays m ≤ toDays d) ∧
        (∀ a, acc = some a → toDays m ≤ toDays a) by
    obtain ⟨h1, h2, _⟩ := haux ds none m h
    refine ⟨?_, h2⟩
    rcases h1 with h1 | h1
    · exact h1
    · cases h1
  intro l
  induction l with
  | nil =>
      intro acc m h
      simp only [List.foldl_nil] at h
      exact ⟨Or.inr h, by simp, fun a ha => by rw [ha] at h; cases h; exact le_rfl⟩
  | cons d l ih =>
      intro acc m h
      rw [List.foldl_cons] at h
      obtain ⟨h1, h2, h3⟩ := ih _ m h
      match hacc : acc with
      | none =>
          simp only [hacc] at h1 h2 h3 ⊢
          refine ⟨?_, ?_, ?_⟩
          · rcases h1 with h1 | h1
            · exact Or.inl (List.mem_cons_of_mem _ h1)
            · cases h1; exact Or.inl (List.mem_cons_self _ _)
          · intro d' hd'
            rcases List.mem_cons.mp hd' with rfl | hd'
            · exact h3 d' rfl
            · exact h2 d' hd'
          · intro a ha; cases ha
      | some a =>
          by_cases hlt : toDays d < toDays a
          · simp only [hacc, if_pos hlt] at h1 h2 h3
            refine ⟨?_, ?_, ?_⟩
            · rcases h1 with h1 | h1
              · exact Or.inl (List.mem_cons_of_mem _ h1)
              · cases h1; exact Or.inl (List.mem_cons_self _ _)
            · intro d' hd'
              rcases List.mem_cons.mp hd' with rfl | hd'
              · exact h3 d' rfl
              · exact h2 d' hd'
            · intro b hb
              cases hb
              exact le_trans (h3 d rfl) (le_of_lt hlt)
          · simp only [hacc, if_neg hlt] at h1 h2 h3
            refine ⟨?_, ?_, ?_⟩
            · rcases h1 with h1 | h1
              · exact Or.inl (List.mem_cons_of_mem _ h1)
              · exact Or.inr h1
            · intro d' hd'
              rcases List.mem_cons.mp hd' with rfl | hd'
              · exact le_trans (h3 a rfl) (by omega)
              · exact h2 d' hd'
            · exact h3

theorem maxDate?_spec (ds : List Date) (m : Date) (h : maxDate? ds = some m) :
    m ∈ ds ∧ ∀ d ∈ ds, toDays d ≤ toDays m := by
  unfold maxDate? at h
  suffices haux : ∀ (l : List Date) (acc : Option Date) (m : Date),
      l.foldl (fun acc d =>
        match acc with
        | none => some d
        | some m => if toDays m < toDays d then some d else some m) acc = some m →
      (m ∈ l ∨ acc = some m) ∧ (∀ d ∈ l, toDays d ≤ toDays m) ∧
        (∀ a, acc = some a → toDays a ≤ toDays m) by
    obtain ⟨h1, h2, _⟩ := haux ds none m h
    refine ⟨?_, h2⟩
    rcases h1 with h1 | h1
    · exact h1
    · cases h1
  intro l
  induction l with
  | nil =>
      intro acc m h
      simp only [List.foldl_nil] at h
      exact ⟨Or.inr h, by simp, fun a ha => by rw [ha] at h; cases h; exact le_rfl⟩
  | cons d l ih =>
      intro acc m h
      rw [List.foldl_cons] at h
      obtain ⟨h1, h2, h3⟩ := ih _ m h
      match hacc : acc with
      | none =>
          simp only [hacc] at h1 h2 h3 ⊢
          refine ⟨?_, ?_, ?_⟩
          · rcases h1 with h1 | h1
            · exact Or.inl (List.mem_cons_of_mem _ h1)
            · cases h1; exact Or.inl (List.mem_cons_self _ _)
          · intro d' hd'
            rcases List.mem_cons.mp hd' with rfl | hd'
            · exact h3 d' rfl
            · exact h2 d' hd'
          · intro a ha; cases ha
      | some a =>
          by_cases hlt : toDays a < toDays d
          · simp only [hacc, if_pos hlt] at h1 h2 h3
            refine ⟨?_, ?_, ?_⟩
            · rcases h1 with h1 | h1
              · exact Or.inl (List.mem_cons_of_mem _ h1)
              · cases h1; exact Or.inl (List.mem_cons_self _ _)
            · intro d' hd'
              rcases List.mem_cons.mp hd' with rfl | hd'
              · exact h3 d' rfl
              · exact h2 d' hd'
            · intro b hb
              cases hb
              exact le_trans (le_of_lt hlt) (h3 d rfl)
          · simp only [hacc, if_neg hlt] at h1 h2 h3
            refine ⟨?_, ?_, ?_⟩
            · rcases h1 with h1 | h1
              · exact Or.inl (List.mem_cons_of_mem _ h1)
              · exact Or.inr h1
            · intro d' hd'
              rcases List.mem_cons.mp hd' with rfl | hd'
              · exact le_trans (by omega) (h3 a rfl)
              · exact h2 d' hd'
            · exact h3

/-! ### The month-grid sequence -/

theorem monthRange_length (s n : Nat) : (monthRange s n).length = n := by
  induction n generalizing s with
  | zero => rfl
  | succ n ih => simp [monthRange, ih]

theorem mem_monthRange {d : Date} {s n : Nat} :
    d ∈ monthRange s n ↔ ∃ k, k < n ∧ d = monthStart (s + k) := by
  induction n generalizing s with
  | zero => simp [monthRange]
  | succ n ih =>
      simp only [monthRange, List.mem_cons, ih]
      constructor
      · rintro (rfl | ⟨k, hk, rfl⟩)
        · exact ⟨0, by omega, by rw [Nat.add_zero]⟩
        · exact ⟨k + 1, by omega, by rw [show s + 1 + k = s + (k + 1) by omega]⟩
      · rintro ⟨k, hk, rfl⟩
        match k with
        | 0 => exact Or.inl (by rw [Nat.add_zero])
        | k + 1 => exact Or.inr ⟨k, by omega, by rw [show s + 1 + k = s + (k + 1) by omega]⟩

theorem monthRange_nodup (s n : Nat) : (monthRange s n).Nodup := by
  induction n generalizing s with
  | zero => simp [monthRange]
  | succ n ih =>
      rw [monthRange, List.nodup_cons]
      refine ⟨?_, ih (s + 1)⟩
      intro hmem
      obtain ⟨k, _, hk⟩ := mem_monthRange.mp hmem
      have := monthStart_inj hk
      omega

theorem monthRange_chain (s n : Nat) :
    List.Chain' (fun a b => b = addMonth a) (monthRange s n) := by
  induction n generalizing s with
  | zero => simp [monthRange]
  | succ n ih =>
      match n with
      | 0 => simp [monthRange]
      | m + 1 =>
          rw [monthRange, monthRange, List.chain'_cons]
          constructor
          · rw [addMonth_monthStart]
          · rw [← monthRange]
            exact ih (s + 1)

theorem monthRange_pairwise (s n : Nat) (hs : 12 ≤ s) :
    (monthRange s n).Pairwise (fun a b => toDays a < toDays b) := by
  induction n generalizing s with
  | zero => simp [monthRange]
  | succ n ih =>
      rw [monthRange, List.pairwise_cons]
      refine ⟨?_, ih (s + 1) (by omega)⟩
      intro b hb
      obtain ⟨k, _, rfl⟩ := mem_monthRange.mp hb
      exact toDays_monthStart_lt_mono hs (by omega)

theorem monthRange_head? (s n : Nat) (h : 0 < n) :
    (monthRange s n).head? = some (monthStart s) := by
  match n with
  | 0 => omega
  | n + 1 => rfl

theorem monthRange_getLast? (s n : Nat) :
    (monthRange s (n + 1)).getLast? = some (monthStart (s + n)) := by
  induction n generalizing s with
  | zero => rfl
  | succ n ih =>
      show (monthStart s :: (monthStart (s + 1) :: monthRange (s + 2) n)).getLast? = _
      rw [List.getLast?_cons_cons]
      have e : s + (n + 1) = s + 1 + n := by omega
      rw [e]
      exact ih (s + 1)

/-! ### The distinct-client list -/

theorem uniqueClients_nodup (l : List Invoice) : (uniqueClients l).Nodup := by
  unfold uniqueClients
  suffices haux : ∀ (l : List Invoice) (acc : List String), acc.Nodup →
      (l.foldl (fun acc inv =>
        if inv.cliente ∈ acc then acc else acc ++ [inv.cliente]) acc).Nodup from
    haux l [] List.nodup_nil
  intro l
  induction l with
  | nil => intro acc h; exact h
  | cons inv l ih =>
      intro acc h
      rw [List.foldl_cons]
      apply ih
      split
      · exact h
      · rw [List.nodup_append]
        refine ⟨h, List.nodup_singleton _, ?_⟩
        intro x hx hmem
        rw [List.mem_singleton] at hmem
        subst hmem
        exact ‹inv.cliente ∉ acc› hx

theorem mem_uniqueClients {l : List Invoice} {x : String} :
    x ∈ uniqueClients l ↔ ∃ inv ∈ l, inv.cliente = x := by
  unfold uniqueClients
  suffices haux : ∀ (l : List Invoice) (acc : List String),
      (x ∈ l.foldl (fun acc inv =>
        if inv.cliente ∈ acc then acc else acc ++ [inv.cliente]) acc ↔
        x ∈ acc ∨ ∃ inv ∈ l, inv.cliente = x) by
    rw [haux l []]
    simp
  intro l
  induction l with
  | nil => intro acc; simp
  | cons inv l ih =>
      intro acc
      rw [List.foldl_cons, ih]
      by_cases hmem : inv.cliente ∈ acc
      · rw [if_pos hmem]
        constructor
        · rintro (hx | hx)
          · exact Or.inl hx
          · exact Or.inr (by simpa using Or.inr (by simpa using hx))
        · rintro (hx | ⟨inv', hinv', rfl⟩)
          · exact Or.inl hx
          · rcases List.mem_cons.mp hinv' with rfl | hinv'
            · exact Or.inl hmem
            · exact Or.inr ⟨inv', hinv', rfl⟩
      · rw [if_neg hmem]
        constructor
        · rintro (hx | hx)
          · rcases List.mem_append.mp hx with hx | hx
            · exact Or.inl hx
            · rw [List.mem_singleton] at hx
              exact Or.inr ⟨inv, List.mem_cons_self _ _, hx.symm⟩
          · obtain ⟨inv', hinv', rfl⟩ := hx
            exact Or.inr ⟨inv', List.mem_cons_of_mem _ hinv', rfl⟩
        · rintro (hx | ⟨inv', hinv', rfl⟩)
          · exact Or.inl (List.mem_append.mpr (Or.inl hx))
          · rcases List.mem_cons.mp hinv' with rfl | hinv'
            · exact Or.inl (List.mem_append.mpr (Or.inr (by simp)))
            · exact Or.inr ⟨inv', hinv', rfl⟩

/-! ### Structure of the emitted rows -/

theorem mem_ite_singleton {α : Type} {p : Prop} [Decidable p] {x r : α}
    (h : r ∈ if p then [x] else ([] : List α)) : r = x ∧ p := by
  split at h
  · rw [List.mem_singleton] at h
    exact ⟨h, by assumption⟩
  · cases h

theorem ite_singleton_sublist {α : Type} {p : Prop} [Decidable p] (x : α) :
    List.Sublist (if p then [x] else ([] : List α)) [x] := by
  split
  · exact List.Sublist.refl _
  · exact List.nil_sublist _

theorem mem_rowsFor_cases {ledger : List Invoice} {now s : Date} {c : String} {r : GoldRow}
    (h : r ∈ rowsFor ledger now s c) :
    (r = mkRow s c "Facturación Mensual" (sumTotal (billingOf ledger s c))
        (isCurrentMonth now s) (billingOf ledger s c) ∧
      0 < sumTotal (billingOf ledger s c)) ∨
    (∃ b, (b = "Deuda 0-3 Meses" ∨ b = "Deuda 3-6 Meses" ∨ b = "Deuda 6-12 Meses" ∨
        b = "Deuda > 12 Meses") ∧
      r = mkRow s c b (sumTotal (bucketInvoices ledger s c b)) (isCurrentMonth now s)
        (bucketInvoices ledger s c b) ∧
      0 < sumTotal (bucketInvoices ledger s c b)) ∨
    (r = mkRow s c "Alerta: Pasó 3 Meses" (sumTotal (crossedInvoices ledger s c))
        (isCurrentMonth now s) (crossedInvoices ledger s c) ∧
      0 < sumTotal (crossedInvoices ledger s c)) ∨
    (r = mkRow s c "Pagos Deuda Post-Inicio" (sumTotal (paidPostInvoices ledger s c))
        (isCurrentMonth now s) (paidPostInvoices ledger s c) ∧
      isCurrentMonth now s = true ∧ 0 < sumTotal (paidPostInvoices ledger s c)) ∨
    (r = mkRow s c "Pagos Alerta Post-Inicio" (sumTotal (paidAlertInvoices ledger s c))
        (isCurrentMonth now s) (paidAlertInvoices ledger s c) ∧
      isCurrentMonth now s = true ∧ 0 < sumTotal (paidAlertInvoices ledger s c)) := by
  unfold rowsFor bucketRowBlock at h
  simp only [List.mem_append] at h
  rcases h with ((((((h | h) | h) | h) | h) | h) | h) | h
  · exact Or.inl (mem_ite_singleton h)
  · obtain ⟨hr, hp⟩ := mem_ite_singleton h
    exact Or.inr (Or.inl ⟨_, Or.inl rfl, hr, hp⟩)
  · obtain ⟨hr, hp⟩ := mem_ite_singleton h
    exact Or.inr (Or.inl ⟨_, Or.inr (Or.inl rfl), hr, hp⟩)
  · obtain ⟨hr, hp⟩ := mem_ite_singleton h
    exact Or.inr (Or.inl ⟨_, Or.inr (Or.inr (Or.inl rfl)), hr, hp⟩)
  · obtain ⟨hr, hp⟩ := mem_ite_singleton h
    exact Or.inr (Or.inl ⟨_, Or.inr (Or.inr (Or.inr rfl)), hr, hp⟩)
  · exact Or.inr (Or.inr (Or.inl (mem_ite_singleton h)))
  · obtain ⟨hr, hp⟩ := mem_ite_singleton h
    exact Or.inr (Or.inr (Or.inr (Or.inl ⟨hr, hp.1, hp.2⟩)))
  · obtain ⟨hr, hp⟩ := mem_ite_singleton h
    exact Or.inr (Or.inr (Or.inr (Or.inr ⟨hr, hp.1, hp.2⟩)))

theorem mem_rowsFor_fields {ledger : List Invoice} {now s : Date} {c : String} {r : GoldRow}
    (h : r ∈ rowsFor ledger now s c) :
    r.fechaReporte = s ∧ r.cliente = c ∧ 0 < r.monto ∧ r.esMesActual = isCurrentMonth now s := by
  rcases mem_rowsFor_cases h with ⟨rfl, hp⟩ | ⟨b, _, rfl, hp⟩ | ⟨rfl, hp⟩ |
    ⟨rfl, _, hp⟩ | ⟨rfl, _, hp⟩ <;> exact ⟨rfl, rfl, hp, rfl⟩

theorem rowsFor_paid_current {ledger : List Invoice} {now s : Date} {c : String} {r : GoldRow}
    (h : r ∈ rowsFor ledger now s c)
    (hc : r.concepto = "Pagos Deuda Post-Inicio" ∨ r.concepto = "Pagos Alerta Post-Inicio") :
    isCurrentMonth now s = true := by
  rcases mem_rowsFor_cases h with ⟨rfl, _⟩ | ⟨b, hb, rfl, _⟩ | ⟨rfl, _⟩ |
    ⟨rfl, hcur, _⟩ | ⟨rfl, hcur, _⟩
  · rcases hc with hc | hc <;> simp [mkRow] at hc
  · rcases hb with rfl | rfl | rfl | rfl <;> rcases hc with hc | hc <;> simp [mkRow] at hc
  · rcases hc with hc | hc <;> simp [mkRow] at hc
  · exact hcur
  · exact hcur

theorem rowsFor_keys_nodup (ledger : List Invoice) (now s : Date) (c : String) :
    ((rowsFor ledger now s c).map keyOf).Nodup := by
  have hsub : List.Sublist (rowsFor ledger now s c)
      [mkRow s c "Facturación Mensual" (sumTotal (billingOf ledger s c))
        (isCurrentMonth now s) (billingOf ledger s c),
       mkRow s c "Deuda 0-3 Meses" (sumTotal (bucketInvoices ledger s c "Deuda 0-3 Meses"))
        (isCurrentMonth now s) (bucketInvoices ledger s c "Deuda 0-3 Meses"),
       mkRow s c "Deuda 3-6 Meses" (sumTotal (bucketInvoices ledger s c "Deuda 3-6 Meses"))
        (isCurrentMonth now s) (bucketInvoices ledger s c "Deuda 3-6 Meses"),
       mkRow s c "Deuda 6-12 Meses" (sumTotal (bucketInvoices ledger s c "Deuda 6-12 Meses"))
        (isCurrentMonth now s) (bucketInvoices ledger s c "Deuda 6-12 Meses"),
       mkRow s c "Deuda > 12 Meses" (sumTotal (bucketInvoices ledger s c "Deuda > 12 Meses"))
        (isCurrentMonth now s) (bucketInvoices ledger s c "Deuda > 12 Meses"),
       mkRow s c "Alerta: Pasó 3 Meses" (sumTotal (crossedInvoices ledger s c))
        (isCurrentMonth now s) (crossedInvoices ledger s c),
       mkRow s c "Pagos Deuda Post-Inicio" (sumTotal (paidPostInvoices ledger s c))
        (isCurrentMonth now s) (paidPostInvoices ledger s c),
       mkRow s c "Pagos Alerta Post-Inicio" (sumTotal (paidAlertInvoices ledger s c))
        (isCurrentMonth now s) (paidAlertInvoices ledger s c)] := by
    unfold rowsFor bucketRowBlock
    exact (((((((ite_singleton_sublist _).append (ite_singleton_sublist _)).append
      (ite_singleton_sublist _)).append (ite_singleton_sublist _)).append
      (ite_singleton_sublist _)).append (ite_singleton_sublist _)).append
      (ite_singleton_sublist _)).append (ite_singleton_sublist _)
  refine List.Nodup.sublist (List.Sublist.map keyOf hsub) ?_
  simp [keyOf, mkRow]

theorem mem_goldRows {ledger : List Invoice} {now : Date} {snaps : List Date} {r : GoldRow} :
    r ∈ goldRows ledger now snaps ↔
      ∃ s ∈ snaps, ∃ c ∈ uniqueClients ledger, r ∈ rowsFor ledger now s c := by
  unfold goldRows
  simp [List.mem_flatMap]

theorem keys_mem_rowsFor {ledger : List Invoice} {now s : Date} {c : String}
    {k : Date × String × String} (hk : k ∈ (rowsFor ledger now s c).map keyOf) :
    k.1 = s ∧ k.2.1 = c := by
  rw [List.mem_map] at hk
  obtain ⟨r, hr, rfl⟩ := hk
  obtain ⟨h1, h2, _⟩ := mem_rowsFor_fields hr
  exact ⟨h1, h2⟩

theorem goldRows_keys_nodup (ledger : List Invoice) (now : Date) (snaps : List Date)
    (hnd : snaps.Nodup) : ((goldRows ledger now snaps).map keyOf).Nodup := by
  unfold goldRows
  rw [List.map_flatMap, List.nodup_flatMap]
  constructor
  · intro s _
    rw [List.map_flatMap, List.nodup_flatMap]
    constructor
    · intro c _
      exact rowsFor_keys_nodup ledger now s c
    · refine List.Pairwise.imp ?_ (uniqueClients_nodup ledger)
      intro c c' hne k hk1 hk2
      have e1 := (keys_mem_rowsFor hk1).2
      have e2 := (keys_mem_rowsFor hk2).2
      exact hne (e1 ▸ e2 ▸ rfl)
  · refine List.Pairwise.imp ?_ hnd
    intro a b hne k hk1 hk2
    simp only [List.map_flatMap, List.mem_flatMap] at hk1 hk2
    obtain ⟨c1, _, hk1⟩ := hk1
    obtain ⟨c2, _, hk2⟩ := hk2
    have e1 := (keys_mem_rowsFor hk1).1
    have e2 := (keys_mem_rowsFor hk2).1
    exact hne (e1 ▸ e2 ▸ rfl)

/-! ### Sorting pass -/

theorem insertRow_perm (r : GoldRow) (l : List GoldRow) :
    List.Perm (insertRow r l) (r :: l) := by
  induction l with
  | nil => exact List.Perm.refl _
  | cons x xs ih =>
      unfold insertRow
      split
      · exact List.Perm.refl _
      · exact List.Perm.trans (List.Perm.cons x ih) (List.Perm.swap r x xs)

theorem sortRows_perm (l : List GoldRow) : List.Perm (sortRows l) l := by
  unfold sortRows
  induction l with
  | nil => exact List.Perm.refl _
  | cons x xs ih =>
      rw [List.foldr_cons]
      exact List.Perm.trans (insertRow_perm x _) (List.Perm.cons x ih)

/-! ### The variance merge -/

theorem matchesPrior_iff {r p : GoldRow} :
    matchesPrior r p = true ↔
      addMonth p.fechaReporte = r.fechaReporte ∧ p.cliente = r.cliente ∧
        p.concepto = r.concepto := by
  unfold matchesPrior
  simp [Bool.and_eq_true, decide_eq_true_eq, and_assoc]

/-- With a duplicate-free key set and month-grid report dates, each row has
at most one merge partner. -/
theorem filter_matchesPrior_subsingleton {rows : List GoldRow}
    (hnd : (rows.map keyOf).Nodup) (hms : ∀ r ∈ rows, monthStartish r.fechaReporte)
    (r : GoldRow) :
    rows.filter (matchesPrior r) = [] ∨ ∃ p, rows.filter (matchesPrior r) = [p] := by
  have huniq : ∀ p q, p ∈ rows.filter (matchesPrior r) → q ∈ rows.filter (matchesPrior r) →
      p = q := by
    intro p q hp hq
    rw [List.mem_filter] at hp hq
    obtain ⟨hpmem, hpm⟩ := hp
    obtain ⟨hqmem, hqm⟩ := hq
    rw [matchesPrior_iff] at hpm hqm
    have hdate : p.fechaReporte = q.fechaReporte :=
      addMonth_inj_on (hms p hpmem) (hms q hqmem) (by rw [hpm.1, hqm.1])
    have hkey : keyOf p = keyOf q := by
      unfold keyOf
      rw [hdate, hpm.2.1, hqm.2.1, hpm.2.2, hqm.2.2]
    exact List.inj_on_of_nodup_map hnd hpmem hqmem hkey
  cases hcase : rows.filter (matchesPrior r) with
  | nil => exact Or.inl rfl
  | cons p rest =>
      refine Or.inr ⟨p, ?_⟩
      have hrest : rest = [] := by
        cases hrest : rest with
        | nil => rfl
        | cons q t =>
            exfalso
            have hq : q ∈ rows.filter (matchesPrior r) := by
              rw [hcase, hrest]
              exact List.mem_cons_of_mem _ (List.mem_cons_self _ _)
            have hp : p ∈ rows.filter (matchesPrior r) := by
              rw [hcase]
              exact List.mem_cons_self _ _
            have heq : q = p := huniq q p hq hp
            have hnodup : (rows.filter (matchesPrior r)).Nodup :=
              List.Nodup.sublist (List.filter_sublist rows) (List.Nodup.of_map keyOf hnd)
            rw [hcase, hrest, heq] at hnodup
            rw [List.nodup_cons] at hnodup
            exact hnodup.1 (List.mem_cons_self _ _)
      rw [hrest]

theorem flatMap_congr_mem {α β : Type} {l : List α} {f g : α → List β}
    (h : ∀ a ∈ l, f a = g a) : l.flatMap f = l.flatMap g := by
  induction l with
  | nil => rfl
  | cons x xs ih =>
      rw [List.flatMap_cons, List.flatMap_cons, h x (List.mem_cons_self _ _),
        ih (fun a ha => h a (List.mem_cons_of_mem _ ha))]

theorem mergeRow_of_nil {rows : List GoldRow} {r : GoldRow}
    (hnil : rows.filter (matchesPrior r) = []) :
    mergeRow rows r = [{ row := r, variacion := r.monto - 0 }] := by
  unfold mergeRow
  rw [hnil]

theorem mergeRow_of_single {rows : List GoldRow} {r p : GoldRow}
    (hp : rows.filter (matchesPrior r) = [p]) :
    mergeRow rows r = [{ row := r, variacion := r.monto - p.monto }] := by
  unfold mergeRow
  rw [hp]
  rfl

/-- The left merge keeps exactly the input rows, in order. -/
theorem attachVariance_map_row {rows : List GoldRow}
    (hnd : (rows.map keyOf).Nodup) (hms : ∀ r ∈ rows, monthStartish r.fechaReporte) :
    (attachVariance rows).map FinalRow.row = rows := by
  unfold attachVariance
  rw [List.map_flatMap]
  have hcell : ∀ r ∈ rows, (mergeRow rows r).map FinalRow.row = [r] := by
    intro r _
    rcases filter_matchesPrior_subsingleton hnd hms r with hnil | ⟨p, hp⟩
    · rw [mergeRow_of_nil hnil]
      rfl
    · rw [mergeRow_of_single hp]
      rfl
  rw [flatMap_congr_mem hcell]
  simp

/-- The variance attached to each merged row is its amount minus the matched
prior amount (0 if unmatched). -/
theorem attachVariance_variacion {rows : List GoldRow}
    (hnd : (rows.map keyOf).Nodup) (hms : ∀ r ∈ rows, monthStartish r.fechaReporte)
    {fr : FinalRow} (h : fr ∈ attachVariance rows) :
    fr.variacion = fr.row.monto -
      ((rows.filter (matchesPrior fr.row)).map GoldRow.monto).headD 0 := by
  unfold attachVariance at h
  rw [List.mem_flatMap] at h
  obtain ⟨r, hr, hfr⟩ := h
  rcases filter_matchesPrior_subsingleton hnd hms r with hnil | ⟨p, hp⟩
  · rw [mergeRow_of_nil hnil, List.mem_singleton] at hfr
    subst hfr
    rw [hnil]
    simp
  · rw [mergeRow_of_single hp, List.mem_singleton] at hfr
    subst hfr
    rw [hp]
    simp

theorem mem_attachVariance_row {rows : List GoldRow} {fr : FinalRow}
    (h : fr ∈ attachVariance rows) : fr.row ∈ rows := by
  unfold attachVariance at h
  rw [List.mem_flatMap] at h
  obtain ⟨r, hr, hfr⟩ := h
  unfold mergeRow at hfr
  rcases hfilt : rows.filter (matchesPrior r) with _ | ⟨p, ps⟩
  · rw [hfilt] at hfr
    rw [List.mem_singleton] at hfr
    subst hfr
    exact hr
  · rw [hfilt] at hfr
    rw [List.mem_map] at hfr
    obtain ⟨q, _, hfr⟩ := hfr
    subst hfr
    exact hr

/-! ### Unpacking the engine pipeline -/

theorem mem_validDates {ledger : List Invoice} {d : Date} :
    d ∈ validDates ledger ↔ ∃ inv ∈ ledger, inv.fecha = some d := by
  unfold validDates
  simp [List.mem_filterMap]

theorem validDates_eq_nil {ledger : List Invoice} (h : ∀ inv ∈ ledger, inv.fecha = none) :
    validDates ledger = [] := by
  induction ledger with
  | nil => rfl
  | cons inv l ih =>
      unfold validDates at *
      simp [List.filterMap_cons, h inv (List.mem_cons_self _ _),
        ih (fun i hi => h i (List.mem_cons_of_mem _ hi))]

theorem snapshots_of_no_dates {ledger : List Invoice} {now : Date}
    (h : validDates ledger = []) : snapshots ledger now = none := by
  unfold snapshots
  rw [h]
  rfl

theorem snapshots_some {ledger : List Invoice} {now : Date} {snaps : List Date}
    (h : snapshots ledger now = some snaps) :
    ∃ minD maxD, minDate? (validDates ledger) = some minD ∧
      maxDate? (validDates ledger) = some maxD ∧
      snaps = monthRange (monthIndex (floorMonth minD))
        (monthIndex (floorMonth (pymax maxD now)) + 1 - monthIndex (floorMonth minD)) := by
  unfold snapshots at h
  rcases hmin : minDate? (validDates ledger) with _ | minD <;>
    rcases hmax : maxDate? (validDates ledger) with _ | maxD <;>
    rw [hmin, hmax] at h <;> simp only [] at h
  · cases h
  · cases h
  · cases h
  · exact ⟨minD, maxD, rfl, rfl, (Option.some.injEq _ _ ▸ h).symm⟩

theorem wf_minDate {ledger : List Invoice} {minD : Date} (hw : wfLedger ledger)
    (h : minDate? (validDates ledger) = some minD) : wfDate minD := by
  obtain ⟨hmem, _⟩ := minDate?_spec _ _ h
  obtain ⟨inv, hinv, hf⟩ := mem_validDates.mp hmem
  exact hw inv hinv minD hf

theorem wf_maxDate {ledger : List Invoice} {maxD : Date} (hw : wfLedger ledger)
    (h : maxDate? (validDates ledger) = some maxD) : wfDate maxD := by
  obtain ⟨hmem, _⟩ := maxDate?_spec _ _ h
  obtain ⟨inv, hinv, hf⟩ := mem_validDates.mp hmem
  exact hw inv hinv maxD hf

/-! ### Claims -/

/-- C1 counterexample: an invoice that is unpaid as of snapshot S, has a
valid invoice date with overdue-months exactly 0 (so `overdue_months ≥ 0`),
yet contributes to none of the four aging buckets, because the code also
requires `days_overdue > 0`. -/
theorem C1_counterexample :
    isUnpaidAt dateC1 invC1 = true ∧ invC1.fecha = some dateC1 ∧
      0 ≤ monthsOverdue (daysBetween dateC1 dateC1) ∧
      ∀ b : String, inBucket b dateC1 invC1 = false := by
  refine ⟨rfl, rfl, ?_, ?_⟩
  · norm_num [monthsOverdue, daysBetween]
  · intro b
    norm_num [inBucket, overdueAt, isUnpaidAt, daysBetween, invC1, dateC1, toDays,
      daysBeforeYear, daysBeforeMonth, isLeap]

theorem bucketConcept_total (m : ℚ) :
    ∃ b, bucketConcept m = some b ∧
      (b = "Deuda 0-3 Meses" ∨ b = "Deuda 3-6 Meses" ∨ b = "Deuda 6-12 Meses" ∨
        b = "Deuda > 12 Meses") := by
  unfold bucketConcept
  by_cases h1 : m < 3
  · refine ⟨"Deuda 0-3 Meses", ?_, Or.inl rfl⟩
    rw [if_pos h1]
  · by_cases h2 : m < 6
    · refine ⟨"Deuda 3-6 Meses", ?_, Or.inr (Or.inl rfl)⟩
      rw [if_neg h1, if_pos (⟨by linarith, h2⟩ : 3 ≤ m ∧ m < 6)]
    · by_cases h3 : m < 12
      · refine ⟨"Deuda 6-12 Meses", ?_, Or.inr (Or.inr (Or.inl rfl))⟩
        rw [if_neg h1, if_neg (fun hc => h2 hc.2),
          if_pos (⟨by linarith, h3⟩ : 6 ≤ m ∧ m < 12)]
      · refine ⟨"Deuda > 12 Meses", ?_, Or.inr (Or.inr (Or.inr rfl))⟩
        rw [if_neg h1, if_neg (fun hc => h2 hc.2), if_neg (fun hc => h3 hc.2),
          if_pos (by linarith : 12 ≤ m)]

/-- C1 (amended): an invoice that is unpaid as of S, has a valid invoice
date, and has `days_overdue > 0` is accumulated into exactly one of the
four aging buckets — the `if/elif` chain is mutually exclusive and
exhaustive over the overdue invoices. -/
theorem C1_buckets_partition (s : Date) (inv : Invoice) (d : Date)
    (hf : inv.fecha = some d) (hu : isUnpaidAt s inv = true)
    (hd : 0 < daysBetween s d) :
    ∃ b, (b = "Deuda 0-3 Meses" ∨ b = "Deuda 3-6 Meses" ∨ b = "Deuda 6-12 Meses" ∨
        b = "Deuda > 12 Meses") ∧ inBucket b s inv = true ∧
      ∀ b' : String, inBucket b' s inv = true → b' = b := by
  obtain ⟨b, hbc, hmem⟩ := bucketConcept_total (monthsOverdue (daysBetween s d))
  refine ⟨b, hmem, ?_, ?_⟩
  · unfold inBucket overdueAt
    rw [hf]
    simp [hu, hbc, hd]
  · intro b' hb'
    unfold inBucket at hb'
    rw [hf] at hb'
    simp only [Bool.and_eq_true, decide_eq_true_eq] at hb'
    have h2 := hb'.2
    rw [hbc] at h2
    injection h2 with h2
    exact h2.symm

/-- C1 witness: the amended statement holds at a concrete overdue invoice
(81 days overdue at snapshot 0005-04-01). -/
theorem C1_witness :
    (invA.fecha = some ⟨5, 1, 10⟩ ∧ isUnpaidAt ⟨5, 4, 1⟩ invA = true ∧
      0 < daysBetween ⟨5, 4, 1⟩ ⟨5, 1, 10⟩) ∧
      ∃ b, (b = "Deuda 0-3 Meses" ∨ b = "Deuda 3-6 Meses" ∨ b = "Deuda 6-12 Meses" ∨
          b = "Deuda > 12 Meses") ∧ inBucket b ⟨5, 4, 1⟩ invA = true ∧
        ∀ b' : String, inBucket b' ⟨5, 4, 1⟩ invA = true → b' = b :=
  ⟨⟨rfl, rfl, by decide⟩, C1_buckets_partition _ _ _ rfl rfl (by decide)⟩

/-- C8: when no invoice has a valid date, the run aborts with no output at
all (the engine result is `none`; nothing reaches the sink). -/
theorem C8_no_valid_dates_aborts (ledger : List Invoice) (now : Date)
    (h : ∀ inv ∈ ledger, inv.fecha = none) : runEngine ledger now = none := by
  unfold runEngine
  rw [snapshots_of_no_dates (validDates_eq_nil h)]

/-- C8 witness: a concrete dateless ledger aborts. -/
theorem C8_witness :
    (∀ inv ∈ [invND], inv.fecha = none) ∧ runEngine [invND] nowA = none :=
  ⟨by intro inv h; rw [List.mem_singleton] at h; subst h; rfl,
   C8_no_valid_dates_aborts _ _ (by intro inv h; rw [List.mem_singleton] at h; subst h; rfl)⟩

/-- C9: the engine is a pure function of the ledger and the frozen clock:
equal inputs give identical output row lists. -/
theorem C9_deterministic (l₁ l₂ : List Invoice) (n₁ n₂ : Date)
    (hl : l₁ = l₂) (hn : n₁ = n₂) : runEngine l₁ n₁ = runEngine l₂ n₂ := by
  subst hl
  subst hn
  rfl

/-- C9 witness: applied at a concrete repeated run. -/
theorem C9_witness : runEngine [invA] nowA = runEngine [invA] nowA :=
  C9_deterministic [invA] [invA] nowA nowA rfl rfl

/-- C7: every row the engine emits has a strictly positive amount — all
eight concept rows are guarded by a `> 0` check on their aggregate. -/
theorem C7_amounts_positive (ledger : List Invoice) (now : Date) (out : List FinalRow)
    (h : runEngine ledger now = some out) : ∀ fr ∈ out, 0 < fr.row.monto := by
  unfold runEngine at h
  rcases hsnap : snapshots ledger now with _ | snaps
  · rw [hsnap] at h
    cases h
  · rw [hsnap] at h
    simp only [Option.some.injEq] at h
    subst h
    intro fr hfr
    have hrow := mem_attachVariance_row hfr
    have hgold : fr.row ∈ goldRows ledger now snaps :=
      (sortRows_perm _).mem_iff.mp hrow
    obtain ⟨s, _, c, _, hmem⟩ := mem_goldRows.mp hgold
    exact (mem_rowsFor_fields hmem).2.2.1

/-- C7 witness: a concrete run whose single output row has positive amount. -/
theorem C7_witness :
    runEngine [invA] nowA = some outA ∧ ∀ fr ∈ outA, 0 < fr.row.monto := by
  have heq : runEngine [invA] nowA = some outA := by
    norm_num [outA, runEngine, snapshots, validDates, minDate?, maxDate?, pymax, floorMonth,
      monthIndex, monthRange, monthStart, goldRows, uniqueClients, rowsFor, bucketRowBlock,
      billingOf, clientInvoicesOf, bucketInvoices, crossedInvoices, paidPostInvoices,
      paidAlertInvoices, inMonthOf, relevantAt, isUnpaidAt, overdueAt, inBucket, crossedAt,
      paidPostAt, paidAlertAt, bucketConcept, monthsOverdue, daysBetween, toDays,
      daysBeforeYear, daysBeforeMonth, isLeap, monthLength, isCurrentMonth, sumTotal,
      numsOf, mkRow, sortRows, insertRow, attachVariance, mergeRow, matchesPrior, addMonth,
      subMonth, List.filter, List.flatMap, List.map, List.flatten, List.append,
      List.foldl, List.foldr, List.filterMap, List.length, Option.isSome, List.headD,
      invA, nowA]
  exact ⟨heq, C7_amounts_positive [invA] nowA _ heq⟩

theorem relevant_of_overdue {s : Date} {inv : Invoice} (h : overdueAt s inv = true) :
    relevantAt s inv = true := by
  unfold overdueAt at h
  rw [Bool.and_eq_true] at h
  rcases hf : inv.fecha with _ | d
  · rw [hf] at h
    cases h.2
  · rw [hf] at h
    unfold relevantAt
    rw [hf]
    rw [decide_eq_true_eq] at h ⊢
    have h2 := h.2
    unfold daysBetween at h2
    omega

/-- C5: post-start payment rows appear only at the current-month snapshot,
and an invoice contributes to the paid-debt accumulator exactly when it is
unpaid-as-of-S, strictly overdue, and has a recorded payment date; it
contributes to the paid-alert accumulator exactly when, in addition, the
3-month crossing test holds. -/
theorem C5_post_start_payments (ledger : List Invoice) (now : Date) (snaps : List Date) :
    (∀ r ∈ goldRows ledger now snaps,
      r.concepto = "Pagos Deuda Post-Inicio" ∨ r.concepto = "Pagos Alerta Post-Inicio" →
        r.fechaReporte.year = now.year ∧ r.fechaReporte.month = now.month) ∧
    (∀ s : Date, ∀ inv ∈ ledger, ∀ d : Date, inv.fecha = some d →
      (inv ∈ paidPostInvoices ledger s inv.cliente ↔
        isUnpaidAt s inv = true ∧ 0 < daysBetween s d ∧ inv.cobro.isSome = true) ∧
      (inv ∈ paidAlertInvoices ledger s inv.cliente ↔
        inv ∈ paidPostInvoices ledger s inv.cliente ∧
          monthsOverdue (daysBetween (subMonth s) d) < 3 ∧
          3 ≤ monthsOverdue (daysBetween s d))) := by
  constructor
  · intro r hr hc
    obtain ⟨s, _, c, _, hmem⟩ := mem_goldRows.mp hr
    have hcur := rowsFor_paid_current hmem hc
    have hfecha := (mem_rowsFor_fields hmem).1
    unfold isCurrentMonth at hcur
    rw [Bool.and_eq_true, decide_eq_true_eq, decide_eq_true_eq] at hcur
    rw [hfecha]
    exact hcur
  · intro s inv hinv d hf
    have hpp : inv ∈ paidPostInvoices ledger s inv.cliente ↔
        isUnpaidAt s inv = true ∧ 0 < daysBetween s d ∧ inv.cobro.isSome = true := by
      unfold paidPostInvoices clientInvoicesOf
      rw [List.mem_filter, List.mem_filter]
      constructor
      · intro h
        obtain ⟨⟨_, _⟩, hp⟩ := h
        unfold paidPostAt overdueAt at hp
        rw [hf] at hp
        simp only [Bool.and_eq_true, decide_eq_true_eq] at hp
        exact ⟨hp.1.1, hp.1.2, hp.2⟩
      · rintro ⟨hu, hd, hc⟩
        have hov : overdueAt s inv = true := by
          unfold overdueAt
          rw [hf]
          simp [hu, hd]
        refine ⟨⟨hinv, ?_⟩, ?_⟩
        · rw [Bool.and_eq_true, decide_eq_true_eq]
          exact ⟨relevant_of_overdue hov, rfl⟩
        · unfold paidPostAt
          rw [Bool.and_eq_true]
          exact ⟨hov, hc⟩
    refine ⟨hpp, ?_⟩
    unfold paidAlertInvoices paidPostInvoices clientInvoicesOf
    rw [List.mem_filter, List.mem_filter, List.mem_filter, List.mem_filter]
    unfold paidAlertAt paidPostAt crossedAt
    rw [hf]
    simp only [Bool.and_eq_true, decide_eq_true_eq]
    constructor
    · rintro ⟨hmem2, ⟨hov, hcr1, hcr2⟩, hc⟩
      exact ⟨⟨hmem2, hov, hc⟩, hcr1, hcr2⟩
    · rintro ⟨⟨hmem2, hov, hc⟩, hcr1, hcr2⟩
      exact ⟨hmem2, ⟨hov, hcr1, hcr2⟩, hc⟩

/-- C5 witness: the paid-debt membership test at a concrete snapshot. -/
theorem C5_witness :
    (invP ∈ [invP] ∧ invP.fecha = some ⟨5, 1, 10⟩) ∧
      (invP ∈ paidPostInvoices [invP] ⟨5, 4, 1⟩ invP.cliente ↔
        isUnpaidAt ⟨5, 4, 1⟩ invP = true ∧ 0 < daysBetween ⟨5, 4, 1⟩ ⟨5, 1, 10⟩ ∧
          invP.cobro.isSome = true) :=
  ⟨⟨List.mem_singleton.mpr rfl, rfl⟩,
   ((C5_post_start_payments [invP] nowA []).2 ⟨5, 4, 1⟩ invP
      (List.mem_singleton.mpr rfl) ⟨5, 1, 10⟩ rfl).1⟩

/-! ### Per-cell extraction of a concept row -/

theorem filter_ite_singleton_pos {α : Type} {p : Prop} [Decidable p] {x : α}
    {q : α → Bool} (hq : q x = true) :
    (if p then [x] else []).filter q = if p then [x] else [] := by
  split <;> simp [hq]

theorem filter_ite_singleton_neg {α : Type} {p : Prop} [Decidable p] {x : α}
    {q : α → Bool} (hq : q x = false) :
    (if p then [x] else []).filter q = [] := by
  split <;> simp [hq]

theorem rowsFor_filter_billing (ledger : List Invoice) (now s : Date) (c : String) :
    (rowsFor ledger now s c).filter (fun r => decide (r.concepto = "Facturación Mensual")) =
      if 0 < sumTotal (billingOf ledger s c) then
        [mkRow s c "Facturación Mensual" (sumTotal (billingOf ledger s c))
          (isCurrentMonth now s) (billingOf ledger s c)]
      else [] := by
  unfold rowsFor bucketRowBlock
  repeat rw [List.filter_append]
  rw [filter_ite_singleton_pos (by simp [mkRow])]
  repeat rw [filter_ite_singleton_neg (by simp [mkRow])]
  simp

theorem rowsFor_filter_alert (ledger : List Invoice) (now s : Date) (c : String) :
    (rowsFor ledger now s c).filter (fun r => decide (r.concepto = "Alerta: Pasó 3 Meses")) =
      if 0 < sumTotal (crossedInvoices ledger s c) then
        [mkRow s c "Alerta: Pasó 3 Meses" (sumTotal (crossedInvoices ledger s c))
          (isCurrentMonth now s) (crossedInvoices ledger s c)]
      else [] := by
  unfold rowsFor bucketRowBlock
  repeat rw [List.filter_append]
  rw [show (List.filter (fun r => decide (r.concepto = "Alerta: Pasó 3 Meses"))
      (if 0 < sumTotal (crossedInvoices ledger s c) then
        [mkRow s c "Alerta: Pasó 3 Meses" (sumTotal (crossedInvoices ledger s c))
          (isCurrentMonth now s) (crossedInvoices ledger s c)]
      else [])) = if 0 < sumTotal (crossedInvoices ledger s c) then
        [mkRow s c "Alerta: Pasó 3 Meses" (sumTotal (crossedInvoices ledger s c))
          (isCurrentMonth now s) (crossedInvoices ledger s c)]
      else [] from filter_ite_singleton_pos (by simp [mkRow])]
  repeat rw [filter_ite_singleton_neg (by simp [mkRow])]
  simp

theorem filter_flatMap_unique {α β : Type} {l : List α} {f : α → List β}
    {p : β → Bool} {a : α} (hnd : l.Nodup) (ha : a ∈ l)
    (hother : ∀ b ∈ l, b ≠ a → (f b).filter p = []) :
    (l.flatMap f).filter p = (f a).filter p := by
  induction l with
  | nil => cases ha
  | cons x xs ih =>
      rw [List.flatMap_cons, List.filter_append]
      rw [List.nodup_cons] at hnd
      rcases List.mem_cons.mp ha with rfl | hmem
      · have hxs : (xs.flatMap f).filter p = [] := by
          rw [List.filter_flatMap]
          rw [List.flatMap_eq_nil_iff]
          intro b hb
          exact hother b (List.mem_cons_of_mem _ hb) (fun he => hnd.1 (he ▸ hb))
        rw [hxs, List.append_nil]
      · have hx : (f x).filter p = [] :=
          hother x (List.mem_cons_self _ _) (fun he => hnd.1 (he ▸ hmem))
        rw [hx, List.nil_append]
        exact ih hnd.2 hmem (fun b hb hne => hother b (List.mem_cons_of_mem _ hb) hne)

theorem snaps_nodup_of_snapshots {ledger : List Invoice} {now : Date} {snaps : List Date}
    (h : snapshots ledger now = some snaps) : snaps.Nodup := by
  obtain ⟨minD, maxD, _, _, hsn⟩ := snapshots_some h
  rw [hsn]
  exact monthRange_nodup _ _

/-- Restricting the gold rows to one `(snapshot, client, concept)` cell
picks out exactly the rows of that cell's loop iteration. -/
theorem goldRows_cell_filter {ledger : List Invoice} {now : Date} {snaps : List Date}
    (hsnap : snapshots ledger now = some snaps) {s : Date} (hs : s ∈ snaps)
    {c : String} (hc : c ∈ uniqueClients ledger) (b : String) :
    (goldRows ledger now snaps).filter
        (fun r => decide (r.fechaReporte = s) && decide (r.cliente = c) &&
          decide (r.concepto = b)) =
      (rowsFor ledger now s c).filter (fun r => decide (r.concepto = b)) := by
  unfold goldRows
  rw [filter_flatMap_unique (snaps_nodup_of_snapshots hsnap) hs]
  · rw [filter_flatMap_unique (uniqueClients_nodup ledger) hc]
    · apply List.filter_congr
      intro r hr
      obtain ⟨h1, h2, _⟩ := mem_rowsFor_fields hr
      simp [h1, h2]
    · intro c' hc' hne
      rw [List.filter_eq_nil_iff]
      intro r hr
      obtain ⟨_, h2, _⟩ := mem_rowsFor_fields hr
      simp [h2, hne]
  · intro s' hs' hne
    rw [List.filter_eq_nil_iff]
    intro r hr
    rw [List.mem_flatMap] at hr
    obtain ⟨c', _, hr⟩ := hr
    obtain ⟨h1, _, _⟩ := mem_rowsFor_fields hr
    simp [h1, hne]

/-- C2: for each snapshot `S` and client `C`, the "Facturación Mensual" row
is present exactly when the month's billed total is positive, and then
carries that total, the invoice count, and the invoice numbers in ledger
order; `billingOf` is precisely the set of the client's invoices whose
invoice date shares the snapshot's calendar year and month. -/
theorem C2_monthly_billing {ledger : List Invoice} {now : Date} {snaps : List Date}
    (hsnap : snapshots ledger now = some snaps) {s : Date} (hs : s ∈ snaps)
    {c : String} (hc : c ∈ uniqueClients ledger) :
    ((goldRows ledger now snaps).filter
        (fun r => decide (r.fechaReporte = s) && decide (r.cliente = c) &&
          decide (r.concepto = "Facturación Mensual")) =
      if 0 < sumTotal (billingOf ledger s c) then
        [mkRow s c "Facturación Mensual" (sumTotal (billingOf ledger s c))
          (isCurrentMonth now s) (billingOf ledger s c)]
      else []) ∧
    ∀ inv : Invoice, inv ∈ billingOf ledger s c ↔
      inv ∈ ledger ∧ inv.cliente = c ∧
        ∃ d : Date, inv.fecha = some d ∧ d.year = s.year ∧ d.month = s.month := by
  constructor
  · rw [goldRows_cell_filter hsnap hs hc]
    exact rowsFor_filter_billing ledger now s c
  · intro inv
    unfold billingOf inMonthOf
    rw [List.mem_filter]
    rcases hf : inv.fecha with _ | d
    · simp [hf]
    · simp only [hf, Bool.and_eq_true, decide_eq_true_eq]
      constructor
      · rintro ⟨hm, ⟨hy, hmo⟩, hcl⟩
        exact ⟨hm, hcl, d, rfl, hy, hmo⟩
      · rintro ⟨hm, hcl, d', hd', hy, hmo⟩
        injection hd' with hd'
        subst hd'
        exact ⟨hm, ⟨hy, hmo⟩, hcl⟩

/-- C2 witness: the billing characterization at the concrete one-invoice
run of `invA`. -/
theorem C2_witness :
    (snapshots [invA] nowA = some [⟨5, 1, 1⟩] ∧ (⟨5, 1, 1⟩ : Date) ∈ [(⟨5, 1, 1⟩ : Date)] ∧
      "A" ∈ uniqueClients [invA]) ∧
    (((goldRows [invA] nowA [⟨5, 1, 1⟩]).filter
        (fun r => decide (r.fechaReporte = (⟨5, 1, 1⟩ : Date)) && decide (r.cliente = "A") &&
          decide (r.concepto = "Facturación Mensual")) =
      if 0 < sumTotal (billingOf [invA] ⟨5, 1, 1⟩ "A") then
        [mkRow ⟨5, 1, 1⟩ "A" "Facturación Mensual" (sumTotal (billingOf [invA] ⟨5, 1, 1⟩ "A"))
          (isCurrentMonth nowA ⟨5, 1, 1⟩) (billingOf [invA] ⟨5, 1, 1⟩ "A")]
      else []) ∧
    ∀ inv : Invoice, inv ∈ billingOf [invA] ⟨5, 1, 1⟩ "A" ↔
      inv ∈ [invA] ∧ inv.cliente = "A" ∧
        ∃ d : Date, inv.fecha = some d ∧ d.year = 5 ∧ d.month = 1) := by
  have hsnap : snapshots [invA] nowA = some [⟨5, 1, 1⟩] := by
    norm_num [snapshots, validDates, minDate?, maxDate?, pymax, floorMonth, monthIndex,
      monthRange, monthStart, toDays, daysBeforeYear, daysBeforeMonth, isLeap,
      List.filterMap, List.foldl, invA, nowA]
  have hs : (⟨5, 1, 1⟩ : Date) ∈ [(⟨5, 1, 1⟩ : Date)] := List.mem_singleton.mpr rfl
  have hc : "A" ∈ uniqueClients [invA] := by
    rw [mem_uniqueClients]
    exact ⟨invA, List.mem_singleton.mpr rfl, rfl⟩
  exact ⟨⟨hsnap, hs, hc⟩, C2_monthly_billing hsnap hs hc⟩

/-! ### Key uniqueness and the variance formula -/

theorem goldRows_monthStartish {ledger : List Invoice} {now : Date} {snaps : List Date}
    (hsnap : snapshots ledger now = some snaps) :
    ∀ r ∈ goldRows ledger now snaps, monthStartish r.fechaReporte := by
  intro r hr
  obtain ⟨minD, maxD, _, _, hsn⟩ := snapshots_some hsnap
  obtain ⟨s, hs, c, _, hmem⟩ := mem_goldRows.mp hr
  rw [hsn] at hs
  obtain ⟨k, _, rfl⟩ := mem_monthRange.mp hs
  rw [(mem_rowsFor_fields hmem).1]
  exact monthStartish_monthStart _

theorem perm_eq_of_subsingleton {α : Type} {l₁ l₂ : List α} (h : List.Perm l₁ l₂)
    (hs : l₁ = [] ∨ ∃ x, l₁ = [x]) : l₁ = l₂ := by
  rcases hs with rfl | ⟨x, rfl⟩
  · exact ((List.perm_nil).mp h.symm).symm
  · exact ((List.perm_singleton).mp h.symm).symm

theorem sorted_keys_nodup {ledger : List Invoice} {now : Date} {snaps : List Date}
    (hsnap : snapshots ledger now = some snaps) :
    ((sortRows (goldRows ledger now snaps)).map keyOf).Nodup :=
  (List.Perm.map keyOf (sortRows_perm _)).nodup_iff.mpr
    (goldRows_keys_nodup ledger now snaps (snaps_nodup_of_snapshots hsnap))

theorem sorted_monthStartish {ledger : List Invoice} {now : Date} {snaps : List Date}
    (hsnap : snapshots ledger now = some snaps) :
    ∀ r ∈ sortRows (goldRows ledger now snaps), monthStartish r.fechaReporte :=
  fun r hr => goldRows_monthStartish hsnap r ((sortRows_perm _).mem_iff.mp hr)

theorem filter_sortRows_matchesPrior {ledger : List Invoice} {now : Date} {snaps : List Date}
    (hsnap : snapshots ledger now = some snaps) (r : GoldRow) :
    (sortRows (goldRows ledger now snaps)).filter (matchesPrior r) =
      (goldRows ledger now snaps).filter (matchesPrior r) := by
  apply perm_eq_of_subsingleton (List.Perm.filter _ (sortRows_perm _))
  rcases filter_matchesPrior_subsingleton (sorted_keys_nodup hsnap)
      (sorted_monthStartish hsnap) r with h | ⟨p, hp⟩
  · exact Or.inl h
  · exact Or.inr ⟨p, hp⟩

/-- C10: `(report_date, client, concept)` is a duplicate-free key of the
emitted row set, and the variance pass neither adds nor removes rows: the
final output's underlying rows are exactly the sorted gold rows. -/
theorem C10_unique_key (ledger : List Invoice) (now : Date) (snaps : List Date)
    (hsnap : snapshots ledger now = some snaps) :
    ((goldRows ledger now snaps).map keyOf).Nodup ∧
    ∀ out, runEngine ledger now = some out →
      out.map FinalRow.row = sortRows (goldRows ledger now snaps) := by
  refine ⟨goldRows_keys_nodup ledger now snaps (snaps_nodup_of_snapshots hsnap), ?_⟩
  intro out hout
  unfold runEngine at hout
  rw [hsnap] at hout
  simp only [Option.some.injEq] at hout
  subst hout
  exact attachVariance_map_row (sorted_keys_nodup hsnap) (sorted_monthStartish hsnap)

/-- C10 witness: key uniqueness and row preservation at the concrete run. -/
theorem C10_witness :
    (snapshots [invA] nowA = some [⟨5, 1, 1⟩] ∧ runEngine [invA] nowA = some outA) ∧
    ((goldRows [invA] nowA [⟨5, 1, 1⟩]).map keyOf).Nodup ∧
    outA.map FinalRow.row = sortRows (goldRows [invA] nowA [⟨5, 1, 1⟩]) := by
  have hsnap : snapshots [invA] nowA = some [⟨5, 1, 1⟩] := by
    norm_num [snapshots, validDates, minDate?, maxDate?, pymax, floorMonth, monthIndex,
      monthRange, monthStart, toDays, daysBeforeYear, daysBeforeMonth, isLeap,
      List.filterMap, List.foldl, invA, nowA]
  have hout : runEngine [invA] nowA = some outA := by
    norm_num [outA, runEngine, snapshots, validDates, minDate?, maxDate?, pymax, floorMonth,
      monthIndex, monthRange, monthStart, goldRows, uniqueClients, rowsFor, bucketRowBlock,
      billingOf, clientInvoicesOf, bucketInvoices, crossedInvoices, paidPostInvoices,
      paidAlertInvoices, inMonthOf, relevantAt, isUnpaidAt, overdueAt, inBucket, crossedAt,
      paidPostAt, paidAlertAt, bucketConcept, monthsOverdue, daysBetween, toDays,
      daysBeforeYear, daysBeforeMonth, isLeap, monthLength, isCurrentMonth, sumTotal,
      numsOf, mkRow, sortRows, insertRow, attachVariance, mergeRow, matchesPrior, addMonth,
      subMonth, List.filter, List.flatMap, List.map, List.flatten, List.append,
      List.foldl, List.foldr, List.filterMap, List.length, Option.isSome, List.headD,
      invA, nowA]
  exact ⟨⟨hsnap, hout⟩, (C10_unique_key [invA] nowA _ hsnap).1,
    (C10_unique_key [invA] nowA _ hsnap).2 outA hout⟩

/-- C4: every output row's variance is its amount minus the amount of the
same `(client, concept)` row one calendar month earlier (0 when absent);
rows are neither added nor removed by the merge; an unmatched row keeps
variance equal to its own amount, and a matched row subtracts exactly the
prior amount (so equal consecutive amounts give variance 0). -/
theorem C4_variance_formula (ledger : List Invoice) (now : Date) (snaps : List Date)
    (out : List FinalRow) (hsnap : snapshots ledger now = some snaps)
    (hout : runEngine ledger now = some out) :
    out.map FinalRow.row = sortRows (goldRows ledger now snaps) ∧
    (∀ fr ∈ out, fr.variacion =
      fr.row.monto - priorAmount (goldRows ledger now snaps) fr.row) ∧
    (∀ fr ∈ out, (goldRows ledger now snaps).filter (matchesPrior fr.row) = [] →
      fr.variacion = fr.row.monto) ∧
    (∀ fr ∈ out, ∀ p, (goldRows ledger now snaps).filter (matchesPrior fr.row) = [p] →
      fr.variacion = fr.row.monto - p.monto) := by
  have hrows : out = attachVariance (sortRows (goldRows ledger now snaps)) := by
    unfold runEngine at hout
    rw [hsnap] at hout
    simp only [Option.some.injEq] at hout
    exact hout.symm
  have hform : ∀ fr ∈ out, fr.variacion =
      fr.row.monto - priorAmount (goldRows ledger now snaps) fr.row := by
    intro fr hfr
    rw [hrows] at hfr
    have h := attachVariance_variacion (sorted_keys_nodup hsnap)
      (sorted_monthStartish hsnap) hfr
    rw [filter_sortRows_matchesPrior hsnap] at h
    exact h
  refine ⟨?_, hform, ?_, ?_⟩
  · rw [hrows]
    exact attachVariance_map_row (sorted_keys_nodup hsnap) (sorted_monthStartish hsnap)
  · intro fr hfr hnil
    have h := hform fr hfr
    unfold priorAmount at h
    rw [hnil] at h
    simpa using h
  · intro fr hfr p hp
    have h := hform fr hfr
    unfold priorAmount at h
    rw [hp] at h
    simpa using h

/-- C4 witness: the variance formula at the concrete run. -/
theorem C4_witness :
    (snapshots [invA] nowA = some [⟨5, 1, 1⟩] ∧ runEngine [invA] nowA = some outA) ∧
    (∀ fr ∈ outA, fr.variacion =
      fr.row.monto - priorAmount (goldRows [invA] nowA [⟨5, 1, 1⟩]) fr.row) := by
  have hsnap : snapshots [invA] nowA = some [⟨5, 1, 1⟩] := by
    norm_num [snapshots, validDates, minDate?, maxDate?, pymax, floorMonth, monthIndex,
      monthRange, monthStart, toDays, daysBeforeYear, daysBeforeMonth, isLeap,
      List.filterMap, List.foldl, invA, nowA]
  have hout : runEngine [invA] nowA = some outA := by
    norm_num [outA, runEngine, snapshots, validDates, minDate?, maxDate?, pymax, floorMonth,
      monthIndex, monthRange, monthStart, goldRows, uniqueClients, rowsFor, bucketRowBlock,
      billingOf, clientInvoicesOf, bucketInvoices, crossedInvoices, paidPostInvoices,
      paidAlertInvoices, inMonthOf, relevantAt, isUnpaidAt, overdueAt, inBucket, crossedAt,
      paidPostAt, paidAlertAt, bucketConcept, monthsOverdue, daysBetween, toDays,
      daysBeforeYear, daysBeforeMonth, isLeap, monthLength, isCurrentMonth, sumTotal,
      numsOf, mkRow, sortRows, insertRow, attachVariance, mergeRow, matchesPrior, addMonth,
      subMonth, List.filter, List.flatMap, List.map, List.flatten, List.append,
      List.foldl, List.foldr, List.filterMap, List.length, Option.isSome, List.headD,
      invA, nowA]
  exact ⟨⟨hsnap, hout⟩, (C4_variance_formula [invA] nowA _ outA hsnap hout).2.1⟩

/-! ### The snapshot axis -/

/-- C6: the snapshot sequence runs month-start by month-start, strictly
increasing and gap-free, from the month of the earliest valid invoice date
to the month of `max(latest invoice date, now)`, whose index is at least
the current real month's index. -/
theorem C6_snapshot_sequence (ledger : List Invoice) (now : Date) (snaps : List Date)
    (hw : wfLedger ledger) (hwn : wfDate now)
    (hsnap : snapshots ledger now = some snaps) :
    ∃ minD maxD, minDate? (validDates ledger) = some minD ∧
      maxDate? (validDates ledger) = some maxD ∧
      snaps.head? = some (floorMonth minD) ∧
      snaps.getLast? = some (floorMonth (pymax maxD now)) ∧
      List.Chain' (fun a b => b = addMonth a) snaps ∧
      snaps.Pairwise (fun a b => toDays a < toDays b) ∧
      monthIndex now ≤ monthIndex (floorMonth (pymax maxD now)) := by
  obtain ⟨minD, maxD, hmin, hmax, hsn⟩ := snapshots_some hsnap
  have hwmin := wf_minDate hw hmin
  have hwmax := wf_maxDate hw hmax
  have hwpy : wfDate (pymax maxD now) := by
    unfold pymax
    split
    · exact hwn
    · exact hwmax
  obtain ⟨hmemmin, _⟩ := minDate?_spec _ _ hmin
  obtain ⟨_, hmaxge⟩ := maxDate?_spec _ _ hmax
  have h1 : toDays minD ≤ toDays maxD := hmaxge minD hmemmin
  have h2 : toDays maxD ≤ toDays (pymax maxD now) := by
    unfold pymax
    split
    · omega
    · exact le_rfl
  have hidx : monthIndex minD ≤ monthIndex (pymax maxD now) :=
    monthIndex_le_of_toDays_le hwmin hwpy (le_trans h1 h2)
  have hse : monthIndex (floorMonth minD) ≤ monthIndex (floorMonth (pymax maxD now)) := hidx
  have h12 : 12 ≤ monthIndex (floorMonth minD) := monthIndex_ge_twelve minD hwmin
  have hms : monthStart (monthIndex (floorMonth minD)) = floorMonth minD := by
    have := monthStart_monthIndex (floorMonth minD) hwmin.2.1 hwmin.2.2.1
    exact this
  have hme : monthStart (monthIndex (floorMonth (pymax maxD now))) =
      floorMonth (pymax maxD now) := by
    have := monthStart_monthIndex (floorMonth (pymax maxD now)) hwpy.2.1 hwpy.2.2.1
    exact this
  refine ⟨minD, maxD, hmin, hmax, ?_, ?_, ?_, ?_, ?_⟩
  · rw [hsn, monthRange_head? _ _ (by omega)]
    rw [hms]
  · rw [hsn, show monthIndex (floorMonth (pymax maxD now)) + 1 -
        monthIndex (floorMonth minD) =
      (monthIndex (floorMonth (pymax maxD now)) - monthIndex (floorMonth minD)) + 1
      by omega]
    rw [monthRange_getLast?]
    rw [show monthIndex (floorMonth minD) +
        (monthIndex (floorMonth (pymax maxD now)) - monthIndex (floorMonth minD)) =
      monthIndex (floorMonth (pymax maxD now)) by omega]
    rw [hme]
  · rw [hsn]
    exact monthRange_chain _ _
  · rw [hsn]
    exact monthRange_pairwise _ _ h12
  · show monthIndex now ≤ monthIndex (pymax maxD now)
    unfold pymax
    split
    · exact le_rfl
    · next h =>
        push_neg at h
        exact monthIndex_le_of_toDays_le hwn hwmax h

/-- C6 witness: the full sequence contract at a concrete one-invoice run. -/
theorem C6_witness :
    (wfLedger [invA] ∧ wfDate nowA ∧ snapshots [invA] nowA = some [⟨5, 1, 1⟩]) ∧
    ∃ minD maxD, minDate? (validDates [invA]) = some minD ∧
      maxDate? (validDates [invA]) = some maxD ∧
      ([(⟨5, 1, 1⟩ : Date)].head? = some (floorMonth minD)) ∧
      ([(⟨5, 1, 1⟩ : Date)].getLast? = some (floorMonth (pymax maxD nowA))) ∧
      List.Chain' (fun a b => b = addMonth a) [(⟨5, 1, 1⟩ : Date)] ∧
      List.Pairwise (fun a b => toDays a < toDays b) [(⟨5, 1, 1⟩ : Date)] ∧
      monthIndex nowA ≤ monthIndex (floorMonth (pymax maxD nowA)) := by
  have hw : wfLedger [invA] := by
    intro inv hm d hd
    rw [List.mem_singleton] at hm
    subst hm
    injection hd with hd
    subst hd
    decide
  have hwn : wfDate nowA := by decide
  have hsnap : snapshots [invA] nowA = some [⟨5, 1, 1⟩] := by
    norm_num [snapshots, validDates, minDate?, maxDate?, pymax, floorMonth, monthIndex,
      monthRange, monthStart, toDays, daysBeforeYear, daysBeforeMonth, isLeap,
      List.filterMap, List.foldl, invA, nowA]
  exact ⟨⟨hw, hwn, hsnap⟩, C6_snapshot_sequence [invA] nowA _ hw hwn hsnap⟩

/-! ### The crossing alert -/

theorem overdueAt_parts {s : Date} {inv : Invoice} {d : Date} (hf : inv.fecha = some d)
    (h : overdueAt s inv = true) :
    isUnpaidAt s inv = true ∧ 0 < daysBetween s d := by
  unfold overdueAt at h
  rw [hf] at h
  simp only [Bool.and_eq_true, decide_eq_true_eq] at h
  exact h

theorem crossedAt_parts {s : Date} {inv : Invoice} {d : Date} (hf : inv.fecha = some d)
    (h : crossedAt s inv = true) :
    overdueAt s inv = true ∧ monthsOverdue (daysBetween (subMonth s) d) < 3 ∧
      3 ≤ monthsOverdue (daysBetween s d) := by
  unfold crossedAt at h
  rw [hf] at h
  simp only [Bool.and_eq_true, decide_eq_true_eq] at h
  exact ⟨h.1, h.2.1, h.2.2⟩

theorem snaps_as_monthStart {ledger : List Invoice} {now : Date} {snaps : List Date}
    (hw : wfLedger ledger) (hsnap : snapshots ledger now = some snaps) :
    ∀ s ∈ snaps, ∃ i, 12 ≤ i ∧ s = monthStart i := by
  obtain ⟨minD, maxD, hmin, _, hsn⟩ := snapshots_some hsnap
  intro s hs
  rw [hsn] at hs
  obtain ⟨k, _, rfl⟩ := mem_monthRange.mp hs
  have h12 : 12 ≤ monthIndex (floorMonth minD) :=
    monthIndex_ge_twelve minD (wf_minDate hw hmin)
  exact ⟨_, by omega, rfl⟩

/-- The crossing test can hold at only one index of the month grid: the
day count grows along the grid, so the interval `(91, 92]` in days — the
underside of the `3 × 30.44` threshold — is passed exactly once. -/
theorem crossedAt_monthStart_unique {inv : Invoice} {d : Date} (hf : inv.fecha = some d)
    {i j : Nat} (hi : 12 ≤ i) (hj : 12 ≤ j)
    (hci : crossedAt (monthStart i) inv = true)
    (hcj : crossedAt (monthStart j) inv = true) : i = j := by
  have ext : ∀ k, 12 ≤ k → crossedAt (monthStart k) inv = true →
      (toDays (monthStart (k - 1)) : Int) - (toDays d : Int) ≤ 91 ∧
        92 ≤ (toDays (monthStart k) : Int) - (toDays d : Int) := by
    intro k hk hc
    obtain ⟨_, h1, h2⟩ := crossedAt_parts hf hc
    rw [subMonth_monthStart k hk] at h1
    rw [monthsOverdue_lt_three] at h1
    rw [three_le_monthsOverdue] at h2
    unfold daysBetween at h1 h2
    exact ⟨h1, h2⟩
  obtain ⟨hi1, hi2⟩ := ext i hi hci
  obtain ⟨hj1, hj2⟩ := ext j hj hcj
  by_contra hne
  rcases Nat.lt_or_ge i j with hij | hij
  · have hmono := toDays_monthStart_le_mono hi (by omega : i ≤ j - 1)
    omega
  · rcases Nat.lt_or_ge j i with hji | hji
    · have hmono := toDays_monthStart_le_mono hj (by omega : j ≤ i - 1)
      omega
    · omega

/-- C3 (amended): an invoice satisfying the 3-month crossing test at
snapshot S satisfies it at no other snapshot; at S it is accumulated into
the client's crossing list (in addition to its aging bucket), and the
"Alerta: Pasó 3 Meses" row for (S, client) is emitted with that list and
its sum exactly when the crossing sum is positive (with a zero or negative
crossing sum — e.g. a crossing invoice with total 0 — no alert row is
emitted at all). -/
theorem C3_crossing_alert (ledger : List Invoice) (now : Date) (snaps : List Date)
    (hw : wfLedger ledger) (hsnap : snapshots ledger now = some snaps)
    (inv : Invoice) (hinv : inv ∈ ledger) (d : Date) (hf : inv.fecha = some d)
    (s : Date) (hs : s ∈ snaps) (hcross : crossedAt s inv = true) :
    (∀ s' ∈ snaps, crossedAt s' inv = true → s' = s) ∧
    inv ∈ crossedInvoices ledger s inv.cliente ∧
    inv.num ∈ numsOf (crossedInvoices ledger s inv.cliente) ∧
    (∃ b, inBucket b s inv = true) ∧
    ((goldRows ledger now snaps).filter
        (fun r => decide (r.fechaReporte = s) && decide (r.cliente = inv.cliente) &&
          decide (r.concepto = "Alerta: Pasó 3 Meses")) =
      if 0 < sumTotal (crossedInvoices ledger s inv.cliente) then
        [mkRow s inv.cliente "Alerta: Pasó 3 Meses"
          (sumTotal (crossedInvoices ledger s inv.cliente)) (isCurrentMonth now s)
          (crossedInvoices ledger s inv.cliente)]
      else []) := by
  have hcl : inv.cliente ∈ uniqueClients ledger := mem_uniqueClients.mpr ⟨inv, hinv, rfl⟩
  obtain ⟨hov, hm1, hm2⟩ := crossedAt_parts hf hcross
  have hrel := relevant_of_overdue hov
  have hmemc : inv ∈ crossedInvoices ledger s inv.cliente := by
    unfold crossedInvoices clientInvoicesOf
    rw [List.mem_filter, List.mem_filter]
    exact ⟨⟨hinv, by simp [hrel]⟩, hcross⟩
  refine ⟨?_, hmemc, ?_, ?_, ?_⟩
  · intro s' hs' hcr'
    obtain ⟨i, hi, hsi⟩ := snaps_as_monthStart hw hsnap s hs
    obtain ⟨j, hj, hsj⟩ := snaps_as_monthStart hw hsnap s' hs'
    subst hsi
    subst hsj
    rw [crossedAt_monthStart_unique hf hj hi hcr' hcross]
  · unfold numsOf
    exact List.mem_map.mpr ⟨inv, hmemc, rfl⟩
  · obtain ⟨b, hbc, _⟩ := bucketConcept_total (monthsOverdue (daysBetween s d))
    refine ⟨b, ?_⟩
    unfold inBucket
    rw [hf]
    simp [hov, hbc]
  · rw [goldRows_cell_filter hsnap hs hcl]
    exact rowsFor_filter_alert ledger now s inv.cliente

/-- C3 counterexample: this invoice satisfies every hypothesis of the claim
at snapshot 0005-05-01 (unpaid, overdue, crossing the 3-month threshold
this month), yet the engine output contains no row at all — in particular
no "Alerta: Pasó 3 Meses" row — because its total of 0 makes every
aggregate fail the `> 0` emission filter. -/
theorem C3_counterexample :
    crossedAt ⟨5, 5, 1⟩ invZ = true ∧ isUnpaidAt ⟨5, 5, 1⟩ invZ = true ∧
      0 < daysBetween ⟨5, 5, 1⟩ ⟨5, 1, 10⟩ ∧ invZ.fecha = some ⟨5, 1, 10⟩ ∧
      runEngine [invZ] nowM = some [] := by
  refine ⟨?_, rfl, by decide, rfl, ?_⟩
  · norm_num [crossedAt, overdueAt, isUnpaidAt, invZ, daysBetween, toDays, monthsOverdue,
      subMonth, daysBeforeYear, daysBeforeMonth, isLeap, monthLength]
  · norm_num [runEngine, snapshots, validDates, minDate?, maxDate?, pymax, floorMonth,
      monthIndex, monthRange, monthStart, goldRows, uniqueClients, rowsFor, bucketRowBlock,
      billingOf, clientInvoicesOf, bucketInvoices, crossedInvoices, paidPostInvoices,
      paidAlertInvoices, inMonthOf, relevantAt, isUnpaidAt, overdueAt, inBucket, crossedAt,
      paidPostAt, paidAlertAt, bucketConcept, monthsOverdue, daysBetween, toDays,
      daysBeforeYear, daysBeforeMonth, isLeap, monthLength, isCurrentMonth, sumTotal,
      numsOf, mkRow, sortRows, insertRow, attachVariance, mergeRow, matchesPrior, addMonth,
      subMonth, List.filter, List.flatMap, List.map, List.flatten, List.append,
      List.foldl, List.foldr, List.filterMap, List.length, Option.isSome, List.headD,
      invZ, nowM]

/-- C3 witness: the amended statement at the concrete crossing run of
`invA` (crossing happens at the 0005-05-01 snapshot). -/
theorem C3_witness :
    (wfLedger [invA] ∧
      snapshots [invA] nowM =
        some [⟨5, 1, 1⟩, ⟨5, 2, 1⟩, ⟨5, 3, 1⟩, ⟨5, 4, 1⟩, ⟨5, 5, 1⟩] ∧
      crossedAt ⟨5, 5, 1⟩ invA = true) ∧
    (∀ s' ∈ [(⟨5, 1, 1⟩ : Date), ⟨5, 2, 1⟩, ⟨5, 3, 1⟩, ⟨5, 4, 1⟩, ⟨5, 5, 1⟩],
      crossedAt s' invA = true → s' = ⟨5, 5, 1⟩) ∧
    invA ∈ crossedInvoices [invA] ⟨5, 5, 1⟩ invA.cliente ∧
    invA.num ∈ numsOf (crossedInvoices [invA] ⟨5, 5, 1⟩ invA.cliente) ∧
    (∃ b, inBucket b ⟨5, 5, 1⟩ invA = true) ∧
    ((goldRows [invA] nowM [⟨5, 1, 1⟩, ⟨5, 2, 1⟩, ⟨5, 3, 1⟩, ⟨5, 4, 1⟩, ⟨5, 5, 1⟩]).filter
        (fun r => decide (r.fechaReporte = (⟨5, 5, 1⟩ : Date)) &&
          decide (r.cliente = invA.cliente) &&
          decide (r.concepto = "Alerta: Pasó 3 Meses")) =
      if 0 < sumTotal (crossedInvoices [invA] ⟨5, 5, 1⟩ invA.cliente) then
        [mkRow ⟨5, 5, 1⟩ invA.cliente "Alerta: Pasó 3 Meses"
          (sumTotal (crossedInvoices [invA] ⟨5, 5, 1⟩ invA.cliente))
          (isCurrentMonth nowM ⟨5, 5, 1⟩)
          (crossedInvoices [invA] ⟨5, 5, 1⟩ invA.cliente)]
      else []) := by
  have hw : wfLedger [invA] := by
    intro inv hm d hd
    rw [List.mem_singleton] at hm
    subst hm
    injection hd with hd
    subst hd
    decide
  have hsnap : snapshots [invA] nowM =
      some [⟨5, 1, 1⟩, ⟨5, 2, 1⟩, ⟨5, 3, 1⟩, ⟨5, 4, 1⟩, ⟨5, 5, 1⟩] := by
    norm_num [snapshots, validDates, minDate?, maxDate?, pymax, floorMonth, monthIndex,
      monthRange, monthStart, toDays, daysBeforeYear, daysBeforeMonth, isLeap,
      List.filterMap, List.foldl, invA, nowM]
  have hcross : crossedAt ⟨5, 5, 1⟩ invA = true := by
    norm_num [crossedAt, overdueAt, isUnpaidAt, invA, daysBetween, toDays, monthsOverdue,
      subMonth, daysBeforeYear, daysBeforeMonth, isLeap, monthLength]
  have happ := C3_crossing_alert [invA] nowM _ hw hsnap invA
    (List.mem_singleton.mpr rfl) ⟨5, 1, 10⟩ rfl ⟨5, 5, 1⟩ (by decide) hcross
  exact ⟨⟨hw, hsnap, hcross⟩, happ.1, happ.2.1, happ.2.2.1, happ.2.2.2.1, happ.2.2.2.2⟩

end Consolidacion
